import Mathlib

/-!
# Verification development for `search/ranking_info.cpp` and
`generator/regions/admin_suburbs_marker.cpp`

Shallow embedding of the linear ranking model of the search core, of its diagnostics export,
and of the suburb marker of the region tree.

Conventions of the embedding:
* C++ `double` and `float` values are embedded as exact rationals (`ℚ`); decimal literals
  denote their decimal value.  Infinities and NaN are outside the embedding.
* The namespace `binary64` holds a second embedding of the normalizers and of the scorer in
  which every operation is rounded to binary64; it is used for the statements that rounding
  decides.
* `uint8_t` and `size_t` fields are natural numbers; the bounds of the machine types are
  stated by `RankingInfo.Representable`.
* Enumeration values are embedded by their underlying integer value, because C++ indexes the
  coefficient arrays with that value.  A read past the end of a coefficient array has no
  defined result; the scorer is therefore embedded as a function into `Option ℚ`.
-/

namespace search

/-! ## Declarations that live in headers outside the translated sources -/

/-- Modelled from the spec: the two rating-scale constants `ugc::UGC::kMaxRating` and
`ugc::UGC::kRatingDetalizationThreshold` ("fixed domain constants from the upstream rating
system").  Their header `ugc/types.hpp` is not part of the translated sources, so they are a
parameter of every function that reads them. -/
structure UGC where
  kMaxRating : ℚ
  kRatingDetalizationThreshold : ℚ
  deriving DecidableEq, Repr

/-- Modelled from the spec: underlying value of the name-match quality `None`
(`NAME_SCORE_ZERO`), first of the four declared variants {None, Substring, Prefix, FullMatch}. -/
def NAME_SCORE_ZERO : Nat := 0

/-- Modelled from the spec: underlying value of the name-match quality `Substring`. -/
def NAME_SCORE_SUBSTRING : Nat := 1

/-- Modelled from the spec: underlying value of the name-match quality `Prefix`. -/
def NAME_SCORE_PREFIX : Nat := 2

/-- Modelled from the spec: underlying value of the name-match quality `FullMatch`. -/
def NAME_SCORE_FULL_MATCH : Nat := 3

/-- Modelled from the spec: number of declared name-match qualities (four variants). -/
def NAME_SCORE_COUNT : Nat := 4

/-- Modelled from the spec: underlying values of the eight declared candidate types
{POI, Building, Street, Unclassified, Village, City, State, Country}, in declaration order. -/
def TYPE_POI : Nat := 0

/-- Modelled from the spec: underlying value of candidate type `Building`. -/
def TYPE_BUILDING : Nat := 1

/-- Modelled from the spec: underlying value of candidate type `Street`. -/
def TYPE_STREET : Nat := 2

/-- Modelled from the spec: underlying value of candidate type `Unclassified`. -/
def TYPE_UNCLASSIFIED : Nat := 3

/-- Modelled from the spec: underlying value of candidate type `Village`. -/
def TYPE_VILLAGE : Nat := 4

/-- Modelled from the spec: underlying value of candidate type `City`. -/
def TYPE_CITY : Nat := 5

/-- Modelled from the spec: underlying value of candidate type `State`. -/
def TYPE_STATE : Nat := 6

/-- Modelled from the spec: underlying value of candidate type `Country`. -/
def TYPE_COUNTRY : Nat := 7

/-- Modelled from the spec: number of declared candidate types (eight variants). -/
def TYPE_COUNT : Nat := 8

/-- Modelled from the spec: the class `RankingInfo` declared in `search/ranking_info.hpp`
(not part of the translated sources).  The field list follows the data model of the spec and
the member names used by `ranking_info.cpp`.  `m_errorsMade` is the "optional integer":
`none` is the state in which `m_errorsMade.IsValid()` is false. -/
structure RankingInfo where
  /-- Distance to the pivot in meters (`double`). -/
  m_distanceToPivot : ℚ
  /-- Rank of the feature (`uint8_t`). -/
  m_rank : Nat
  /-- Popularity of the feature (`uint8_t`). -/
  m_popularity : Nat
  /-- Confidence count and rating value (`pair<uint8_t, float>`). -/
  m_rating : Nat × ℚ
  /-- Underlying value of the `NameScore` enumeration. -/
  m_nameScore : Nat
  /-- Number of errors made, when valid. -/
  m_errorsMade : Option Nat
  /-- Maximal number of errors (`size_t`). -/
  m_maxErrorsMade : Nat
  /-- Fraction of matched characters (`double`). -/
  m_matchedFraction : ℚ
  /-- Underlying value of the `Model::Type` enumeration. -/
  m_type : Nat
  m_pureCats : Bool
  m_falseCats : Bool
  m_allTokensUsed : Bool
  m_categorialRequest : Bool
  m_hasName : Bool
  deriving DecidableEq, Repr

/-! ## Coefficients (`ranking_info.cpp`, lines 17-43) -/

def kDistanceToPivot : ℚ := -0.8175524
def kRank : ℚ := 1.0000000
def kPopularity : ℚ := 0.0500000
def kRating : ℚ := 0.0500000
def kFalseCats : ℚ := -0.3745520
def kErrorsMade : ℚ := -0.1090870
def kMatchedFraction : ℚ := 0.7859737
def kAllTokensUsed : ℚ := 1.0000000
def kHasName : ℚ := 0.5

/-- The array `kNameScore[NameScore::NAME_SCORE_COUNT]`, entries in source order. -/
def kNameScore : List ℚ :=
  [ -0.1752510 /- Zero -/,
    0.0309111 /- Substring -/,
    0.0127291 /- Prefix -/,
    0.1316108 /- Full Match -/ ]

/-- The array `kType[Model::TYPE_COUNT]`, entries in source order. -/
def kType : List ℚ :=
  [ -0.1554708 /- POI -/,
    -0.1554708 /- Building -/,
    -0.1052415 /- Street -/,
    -0.1650949 /- Unclassified -/,
    -0.1556262 /- Village -/,
    0.1771632 /- City -/,
    0.0604687 /- State -/,
    0.3438015 /- Country -/ ]

/-! ## Normalizers (`ranking_info.cpp`, lines 52-73) -/

/-- `RankingInfo::kMaxDistMeters = 2e6`. -/
def kMaxDistMeters : ℚ := 2000000

/-- `std::min(a, b)`: returns `b` when `b < a`, and `a` otherwise. -/
def stdMin (a b : ℚ) : ℚ := if b < a then b else a

/-- `TransformDistance`. -/
def TransformDistance (distance : ℚ) : ℚ :=
  stdMin distance kMaxDistMeters / kMaxDistMeters

/-- The local constant `kAverageRating` of `TransformRating`. -/
def kAverageRating : ℚ := 7.6

/-- `TransformRating`: `r` starts at `0.0` and is overwritten only when the confidence count
`rating.first` is nonzero. -/
def TransformRating (ugc : UGC) (rating : Nat × ℚ) : ℚ := Id.run do
  let mut r : ℚ := 0
  if rating.1 ≠ 0 then
    r := (rating.2 - kAverageRating) / (ugc.kMaxRating - ugc.kRatingDetalizationThreshold)
    r := r * ((rating.1 : ℚ) / 3)
  return r

/-! ## The scorer (`ranking_info.cpp`, lines 135-188) -/

/-- `RankingInfo::GetErrorsMade`. -/
def RankingInfo.GetErrorsMade (info : RankingInfo) : ℚ :=
  match info.m_errorsMade with
  | none => 1
  | some errorsMade =>
    if info.m_maxErrorsMade = 0 then 0
    else (errorsMade : ℚ) / (info.m_maxErrorsMade : ℚ)

/-- Conversion of a `bool` operand of a `double` multiplication. -/
def boolToDouble (b : Bool) : ℚ := if b then 1 else 0

/-- `RankingInfo::GetLinearModelRank`.  The two array reads `kType[m_type]` and
`kNameScore[nameScore]` are the only steps without a defined result (index past the end of the
array); they yield `none`. -/
def RankingInfo.GetLinearModelRank (ugc : UGC) (info : RankingInfo) : Option ℚ := do
  let distanceToPivot := TransformDistance info.m_distanceToPivot
  let rank := (info.m_rank : ℚ) / 255
  let popularity := (info.m_popularity : ℚ) / 255
  let rating := TransformRating ugc info.m_rating
  let mut nameScore := info.m_nameScore
  if info.m_pureCats || info.m_falseCats then
    nameScore := NAME_SCORE_ZERO
  let mut result : ℚ := 0
  result := result + kDistanceToPivot * distanceToPivot
  result := result + kRank * rank
  result := result + kPopularity * popularity
  result := result + kRating * rating
  result := result + boolToDouble info.m_falseCats * kFalseCats
  if !info.m_categorialRequest then
    result := result + (← kType[info.m_type]?)
    result := result + (← kNameScore[nameScore]?)
    result := result + kErrorsMade * info.GetErrorsMade
    result := result + kMatchedFraction * info.m_matchedFraction
    result := result + (if info.m_allTokensUsed then 1 else 0) * kAllTokensUsed
  else
    result := result + boolToDouble info.m_hasName * kHasName
  return result

/-! ## Diagnostics export (`ranking_info.cpp`, lines 76-133) -/

/-- The part of the state of a `std::ostream` that `PrintCSVHeader` and `ToCSV` read or write:
the text written so far, the `boolalpha` flag, whether the floatfield is `fixed`, and the
precision.  Width, fill, basefield, `showpos` and the locale are not embedded (the classic
locale and decimal integers are assumed). -/
structure OStream where
  buf : String
  boolalpha : Bool
  fixed : Bool
  precision : Nat
  deriving DecidableEq, Repr

/-- `os << s` for a string or a string literal. -/
def OStream.write (os : OStream) (s : String) : OStream :=
  { os with buf := os.buf ++ s }

/-- `os << fixed`. -/
def OStream.setFixed (os : OStream) : OStream :=
  { os with fixed := true }

/-- `os << n` for an `int`. -/
def OStream.putInt (os : OStream) (n : Int) : OStream :=
  os.write (toString n)

/-- `os << b` for a `bool`: `true`/`false` when `boolalpha` is set, `1`/`0` otherwise. -/
def OStream.putBool (os : OStream) (b : Bool) : OStream :=
  if os.boolalpha then os.write (if b then "true" else "false")
  else os.write (if b then "1" else "0")

/-- Rounding of a nonnegative rational to the nearest natural number, ties to even. -/
def roundHalfEven (x : ℚ) : Nat :=
  let f := ⌊x⌋₊
  let r := x - (f : ℚ)
  if r < 1 / 2 then f
  else if 1 / 2 < r then f + 1
  else if f % 2 = 0 then f else f + 1

/-- Decimal digits of `scaled / 10 ^ precision` with exactly `precision` digits after the
point (no point when the precision is `0`). -/
def fixedDigits (precision scaled : Nat) : String :=
  let intPart := scaled / 10 ^ precision
  let fracDigits := toString (scaled % 10 ^ precision)
  if precision = 0 then toString intPart
  else toString intPart ++ "." ++
    String.mk (List.replicate (precision - fracDigits.length) '0') ++ fracDigits

/-- Fixed-point decimal notation of a real number with the given precision, as written by the
standard library for a stream whose floatfield is `fixed`. -/
def formatFixed (precision : Nat) (x : ℚ) : String :=
  let body := fixedDigits precision (roundHalfEven (|x| * 10 ^ precision))
  if x < 0 then "-" ++ body else body

/-- `os << x` for a `double`.  Only the fixed notation is embedded; a write in any other
notation has no result in the embedding. -/
def OStream.putDouble (os : OStream) (x : ℚ) : Option OStream :=
  if os.fixed then some (os.write (formatFixed os.precision x)) else none

/-- Modelled from the spec: the debug labels of the name-match quality and of the candidate
type ("NameScore and SearchType rendered via their debug label").  The two `DebugPrint`
overloads are defined outside the translated sources, so they are a parameter. -/
structure DebugLabels where
  nameScore : Nat → String
  searchType : Nat → String

/-- `RankingInfo::PrintCSVHeader`. -/
def PrintCSVHeader (os : OStream) : OStream :=
  os.write "DistanceToPivot"
    |>.write ",Rank"
    |>.write ",Popularity"
    |>.write ",Rating"
    |>.write ",NameScore"
    |>.write ",ErrorsMade"
    |>.write ",MatchedFraction"
    |>.write ",SearchType"
    |>.write ",PureCats"
    |>.write ",FalseCats"
    |>.write ",AllTokensUsed"
    |>.write ",IsCategorialRequest"
    |>.write ",HasName"

/-- `RankingInfo::ToCSV`. -/
def RankingInfo.ToCSV (labels : DebugLabels) (ugc : UGC) (info : RankingInfo) (os : OStream) :
    Option OStream := do
  let mut os := os.setFixed
  os := (← os.putDouble info.m_distanceToPivot).write ","
  os := (os.putInt (info.m_rank : Int)).write ","
  os := (os.putInt (info.m_popularity : Int)).write ","
  os := (← os.putDouble (TransformRating ugc info.m_rating)).write ","
  os := (os.write (labels.nameScore info.m_nameScore)).write ","
  os := (← os.putDouble info.GetErrorsMade).write ","
  os := (← os.putDouble info.m_matchedFraction).write ","
  os := (os.write (labels.searchType info.m_type)).write ","
  os := (os.putBool info.m_pureCats).write ","
  os := (os.putBool info.m_falseCats).write ","
  os := (os.putInt (if info.m_allTokensUsed then 1 else 0)).write ","
  os := (os.putInt (if info.m_categorialRequest then 1 else 0)).write ","
  os := os.putInt (if info.m_hasName then 1 else 0)
  return os

/-! ## Input domains -/

/-- Bounds imposed by the machine types of the fields (`uint8_t`). -/
def RankingInfo.Representable (info : RankingInfo) : Prop :=
  info.m_rank ≤ 255 ∧ info.m_popularity ≤ 255 ∧ info.m_rating.1 ≤ 255

/-- Both enumeration fields hold one of the declared variants. -/
def RankingInfo.EnumsDeclared (info : RankingInfo) : Prop :=
  info.m_type < TYPE_COUNT ∧ info.m_nameScore < NAME_SCORE_COUNT

/-- A well-formed feature vector: the constraints of the data model of the spec. -/
def RankingInfo.WellFormed (info : RankingInfo) : Prop :=
  0 ≤ info.m_distanceToPivot ∧ info.m_rank ≤ 255 ∧ info.m_popularity ≤ 255 ∧
  info.m_rating.1 ≤ 3 ∧ info.EnumsDeclared ∧
  (match info.m_errorsMade with
    | none => True
    | some errorsMade => errorsMade ≤ info.m_maxErrorsMade) ∧
  0 ≤ info.m_matchedFraction ∧ info.m_matchedFraction ≤ 1

instance (info : RankingInfo) : Decidable info.Representable := by
  unfold RankingInfo.Representable; infer_instance

instance (info : RankingInfo) : Decidable info.EnumsDeclared := by
  unfold RankingInfo.EnumsDeclared; infer_instance

/-! ## Statements written from the words of the spec -/

/-- Spec wording of distance normalization: `min(distance, ceiling) / ceiling` with
ceiling = 2,000,000 meters. -/
def specDistanceNormalization (distance : ℚ) : ℚ := min distance 2000000 / 2000000

/-- Spec wording of rating normalization: `0` when the confidence count is `0`, otherwise
`((value − 7.6) / (ratingMax − ratingDetailThreshold)) × (confidenceCount / 3)`. -/
def specRatingNormalization (ugc : UGC) (confidenceCount : Nat) (value : ℚ) : ℚ :=
  if confidenceCount = 0 then 0
  else ((value - 7.6) / (ugc.kMaxRating - ugc.kRatingDetalizationThreshold)) *
    ((confidenceCount : ℚ) / 3)

/-- The bracket `[b]` of the spec: `1` for true and `0` for false. -/
def iverson (b : Bool) : ℚ := if b then 1 else 0

/-- Spec wording of the effective name-match quality: forced to `None` when
pureCategoryMatch or falseCategoryMatch is true, the actual value otherwise. -/
def specEffectiveNameScore (info : RankingInfo) : Nat :=
  if info.m_pureCats = true ∨ info.m_falseCats = true then NAME_SCORE_ZERO
  else info.m_nameScore

/-- Spec wording of the score (steps 3 and 4 of the algorithm), given the two coefficients
`wType = weight[type][candidateType]` and `wName = weight[nameQuality][effectiveNameQuality]`
read from the tables. -/
def specLinearModelRank (ugc : UGC) (info : RankingInfo) (wType wName : ℚ) : ℚ :=
  kDistanceToPivot * TransformDistance info.m_distanceToPivot +
  kRank * ((info.m_rank : ℚ) / 255) +
  kPopularity * ((info.m_popularity : ℚ) / 255) +
  kRating * TransformRating ugc info.m_rating +
  kFalseCats * iverson info.m_falseCats +
  (if info.m_categorialRequest = true then kHasName * iverson info.m_hasName
   else wType + wName + kErrorsMade * info.GetErrorsMade +
     kMatchedFraction * info.m_matchedFraction + kAllTokensUsed * iverson info.m_allTokensUsed)

/-! ## Concrete feature vectors used in the end-to-end statements -/

/-- The near candidate of the end-to-end property: distance 0, rank 255, popularity 255,
confidence count 0, FullMatch, errorsMade 0 of at most 0, matchedFraction 1, type City,
allTokensUsed, every other flag false, free-text query. -/
def nearCandidate : RankingInfo where
  m_distanceToPivot := 0
  m_rank := 255
  m_popularity := 255
  m_rating := (0, 0)
  m_nameScore := NAME_SCORE_FULL_MATCH
  m_errorsMade := some 0
  m_maxErrorsMade := 0
  m_matchedFraction := 1
  m_type := TYPE_CITY
  m_pureCats := false
  m_falseCats := false
  m_allTokensUsed := true
  m_categorialRequest := false
  m_hasName := false

/-- The far candidate of the end-to-end property: as `nearCandidate`, but at the given
distance and with rank 0 and popularity 0. -/
def farCandidate (distance : ℚ) : RankingInfo :=
  { nearCandidate with m_distanceToPivot := distance, m_rank := 0, m_popularity := 0 }

/-- Sample values of the two rating-scale constants, used to evaluate the scorer on concrete
feature vectors. -/
def sampleUGC : UGC := ⟨10, 4⟩

/-- A free-text candidate whose confidence count `6` exceeds the documented maximum `3`
(and fits `uint8_t`); rating value `10`. -/
def overconfidentCandidate : RankingInfo :=
  { nearCandidate with m_rating := (6, 10) }

/-- A category-browse candidate whose type and name-match quality are outside the declared
variants. -/
def undeclaredEnumsCandidate : RankingInfo :=
  { nearCandidate with m_type := 99, m_nameScore := 77, m_categorialRequest := true }

/-- The 13 column names of the diagnostics CSV, in the order of section 6 of the spec. -/
def csvHeaderNames : List String :=
  ["DistanceToPivot", "Rank", "Popularity", "Rating", "NameScore", "ErrorsMade",
    "MatchedFraction", "SearchType", "PureCats", "FalseCats", "AllTokensUsed",
    "IsCategorialRequest", "HasName"]

/-- A value of a CSV column: a real number, an integer, a debug label or a boolean. -/
inductive CsvValue where
  | real (x : ℚ)
  | int (n : Int)
  | label (s : String)
  | bool (b : Bool)

/-- Spec wording of the row: the value of each of the 13 columns, in header order
(distanceToPivot, rank, popularity, normalized rating, name-score label, error ratio,
matchedFraction, type label, pureCats, falseCats, allTokensUsed, categorialRequest, hasName). -/
def specCSVValues (labels : DebugLabels) (ugc : UGC) (info : RankingInfo) : List CsvValue :=
  [ .real info.m_distanceToPivot,
    .int info.m_rank,
    .int info.m_popularity,
    .real (TransformRating ugc info.m_rating),
    .label (labels.nameScore info.m_nameScore),
    .real info.GetErrorsMade,
    .real info.m_matchedFraction,
    .label (labels.searchType info.m_type),
    .bool info.m_pureCats,
    .bool info.m_falseCats,
    .bool info.m_allTokensUsed,
    .bool info.m_categorialRequest,
    .bool info.m_hasName ]

/-- The text of a boolean: `0`/`1`, or `false`/`true` in alphabetic form. -/
def boolText (alpha b : Bool) : String :=
  if alpha then (if b then "true" else "false") else (if b then "1" else "0")

/-- The text `field` is a rendering of the column value: a real number in fixed notation with
the given precision, an integer in decimal, a label verbatim, a boolean in numeric or in
alphabetic form. -/
def Renders (precision : Nat) (field : String) : CsvValue → Prop
  | .real x => field = formatFixed precision x
  | .int n => field = toString n
  | .label s => field = s
  | .bool b => field = boolText false b ∨ field = boolText true b

/-- The 13 texts that `ToCSV` writes between the commas, for the flags of the given stream. -/
def csvFields (labels : DebugLabels) (ugc : UGC) (info : RankingInfo) (os : OStream) :
    List String :=
  [ formatFixed os.precision info.m_distanceToPivot,
    toString (info.m_rank : Int),
    toString (info.m_popularity : Int),
    formatFixed os.precision (TransformRating ugc info.m_rating),
    labels.nameScore info.m_nameScore,
    formatFixed os.precision info.GetErrorsMade,
    formatFixed os.precision info.m_matchedFraction,
    labels.searchType info.m_type,
    boolText os.boolalpha info.m_pureCats,
    boolText os.boolalpha info.m_falseCats,
    toString (if info.m_allTokensUsed then 1 else 0 : Int),
    toString (if info.m_categorialRequest then 1 else 0 : Int),
    toString (if info.m_hasName then 1 else 0 : Int) ]

/-- Number of commas in a text. -/
def commaCount (s : String) : Nat := s.data.count ','

/-- Debug labels as they appear in the comments of the coefficient tables; used to evaluate
`ToCSV` on concrete feature vectors. -/
def sampleLabels : DebugLabels where
  nameScore := fun i => ["Zero", "Substring", "Prefix", "Full Match"].getD i "Count"
  searchType := fun i =>
    ["POI", "Building", "Street", "Unclassified", "Village", "City", "State", "Country"].getD i
      "Count"

/-- An output stream in its initial state with `boolalpha` set. -/
def boolalphaStream : OStream := ⟨"", true, false, 6⟩

/-- A feature vector matched purely by category tokens. -/
def pureCatsCandidate : RankingInfo :=
  { nearCandidate with m_pureCats := true }

/-! ## Binary64 arithmetic

A second embedding of the normalizers and of the scorer, in which every arithmetic operation
of the source is followed by the rounding of IEEE 754 binary64 (round to nearest, ties to
even, 53 significant bits).  The exponent range is unbounded: overflow and underflow are
outside this embedding.  Every operation is rounded on its own (no fused multiply-add). -/

/-- Rounding of a nonnegative rational to 53 significant bits, to nearest, ties to even. -/
def roundMagnitude (x : ℚ) : ℚ :=
  let e := Int.log 2 x - 52
  (roundHalfEven (x / 2 ^ e) : ℚ) * 2 ^ e

/-- Rounding of a rational to binary64: the sign is kept and the magnitude is rounded. -/
def roundDouble (x : ℚ) : ℚ :=
  if x < 0 then -roundMagnitude (-x) else roundMagnitude x

namespace binary64

/-- Addition of two doubles. -/
def add (a b : ℚ) : ℚ := roundDouble (a + b)

/-- Subtraction of two doubles. -/
def sub (a b : ℚ) : ℚ := roundDouble (a - b)

/-- Multiplication of two doubles. -/
def mul (a b : ℚ) : ℚ := roundDouble (a * b)

/-- Division of two doubles. -/
def div (a b : ℚ) : ℚ := roundDouble (a / b)

/-- The double denoted by a decimal literal of the source. -/
def lit (x : ℚ) : ℚ := roundDouble x

/-- Conversion of an unsigned integer to `double`. -/
def ofNat (n : Nat) : ℚ := roundDouble (n : ℚ)

/-- `TransformDistance` in binary64. -/
def TransformDistance (distance : ℚ) : ℚ :=
  div (stdMin distance (lit kMaxDistMeters)) (lit kMaxDistMeters)

/-- `TransformRating` in binary64: the value minus the double `7.6`, divided by the difference
of the two rating-scale constants, then multiplied by `double(rating.first) / 3.0`; each of the
four operations is rounded. -/
def TransformRating (ugc : UGC) (rating : Nat × ℚ) : ℚ := Id.run do
  let mut r : ℚ := 0
  if rating.1 ≠ 0 then
    r := div (sub rating.2 (lit kAverageRating))
      (sub ugc.kMaxRating ugc.kRatingDetalizationThreshold)
    r := mul r (div (ofNat rating.1) (lit 3))
  return r

/-- `RankingInfo::GetErrorsMade` in binary64. -/
def GetErrorsMade (info : RankingInfo) : ℚ :=
  match info.m_errorsMade with
  | none => 1
  | some errorsMade =>
    if info.m_maxErrorsMade = 0 then 0
    else div (ofNat errorsMade) (ofNat info.m_maxErrorsMade)

/-- `RankingInfo::GetLinearModelRank` in binary64: every coefficient is the double nearest to
its decimal literal, every product and every `result +=` is rounded.  A read past the end of a
coefficient array yields `none`, as in the exact embedding. -/
def GetLinearModelRank (ugc : UGC) (info : RankingInfo) : Option ℚ := do
  let distanceToPivot := TransformDistance info.m_distanceToPivot
  let rank := div (ofNat info.m_rank) (ofNat 255)
  let popularity := div (ofNat info.m_popularity) (ofNat 255)
  let rating := TransformRating ugc info.m_rating
  let mut nameScore := info.m_nameScore
  if info.m_pureCats || info.m_falseCats then
    nameScore := NAME_SCORE_ZERO
  let mut result : ℚ := 0
  result := add result (mul (lit kDistanceToPivot) distanceToPivot)
  result := add result (mul (lit kRank) rank)
  result := add result (mul (lit kPopularity) popularity)
  result := add result (mul (lit kRating) rating)
  result := add result (mul (boolToDouble info.m_falseCats) (lit kFalseCats))
  if !info.m_categorialRequest then
    result := add result (lit (← kType[info.m_type]?))
    result := add result (lit (← kNameScore[nameScore]?))
    result := add result (mul (lit kErrorsMade) (GetErrorsMade info))
    result := add result (mul (lit kMatchedFraction) info.m_matchedFraction)
    result := add result (mul (if info.m_allTokensUsed then 1 else 0) (lit kAllTokensUsed))
  else
    result := add result (mul (boolToDouble info.m_hasName) (lit kHasName))
  return result

/-- Value of `result` after the four `result +=` statements for distance, rank, popularity
and rating. -/
def magnitudeTerms (ugc : UGC) (info : RankingInfo) : ℚ :=
  add (add (add (add 0 (mul (lit kDistanceToPivot) (TransformDistance info.m_distanceToPivot)))
    (mul (lit kRank) (div (ofNat info.m_rank) (ofNat 255))))
    (mul (lit kPopularity) (div (ofNat info.m_popularity) (ofNat 255))))
    (mul (lit kRating) (TransformRating ugc info.m_rating))

/-- Value of `result` before the branch on the query mode, for the given falseCats flag. -/
def commonTerms (ugc : UGC) (info : RankingInfo) (falseCats : Bool) : ℚ :=
  add (magnitudeTerms ugc info) (mul (boolToDouble falseCats) (lit kFalseCats))

end binary64

/-- A category-browse candidate at distance 0 with rank 0, popularity 4, no rating and a
name; all other fields as in `nearCandidate`. -/
def categorialCandidate : RankingInfo :=
  { nearCandidate with m_rank := 0, m_popularity := 4, m_categorialRequest := true,
                       m_hasName := true }

/-- The candidate `categorialCandidate` with falseCats set. -/
def falseCatsCandidate : RankingInfo :=
  { categorialCandidate with m_falseCats := true }

end search

namespace generator.regions

/-! ## Region tree (`generator/regions/admin_suburbs_marker.cpp`) -/

/-- Modelled from the spec: the place levels that the administrative-hierarchy classifier
assigns ("locality/suburb/sublocality").  The enumeration is declared outside the translated
sources; the four variants named by `admin_suburbs_marker.cpp` are constructors and `other`
stands for every further variant. -/
inductive PlaceLevel where
  | Unknown | Locality | Suburb | Sublocality
  | other (code : Nat)
  deriving DecidableEq, Repr

/-- Modelled from the spec: the administrative level of a region, declared outside the
translated sources.  Only `Unknown` is named by `admin_suburbs_marker.cpp`; `known` stands for
every other value. -/
inductive AdminLevel where
  | Unknown
  | known (level : Nat)
  deriving DecidableEq, Repr

/-- Modelled from the spec: the data of a node of the region tree, reduced to the two
attributes that `admin_suburbs_marker.cpp` reads or writes. -/
structure Region where
  m_level : PlaceLevel
  m_adminLevel : AdminLevel
  deriving DecidableEq, Repr

/-- `region.GetLevel()`. -/
def Region.GetLevel (region : Region) : PlaceLevel := region.m_level
/-- `region.GetAdminLevel()`. -/
def Region.GetAdminLevel (region : Region) : AdminLevel := region.m_adminLevel
/-- `region.SetLevel(level)`. -/
def Region.SetLevel (region : Region) (level : PlaceLevel) : Region :=
  { region with m_level := level }

/-- Modelled from the spec: a node of the finite region tree (`Node::Ptr`), with its data and
its children in order. -/
inductive Node where
  | mk (data : Region) (children : List Node)
  deriving Repr

/-- `tree->GetData()`. -/
def Node.GetData : Node → Region
  | .mk data _ => data

/-- `tree->GetChildren()`. -/
def Node.GetChildren : Node → List Node
  | .mk _ children => children

/-! The four member functions of `AdminSuburbsMarker` update the tree in place; the embedding
returns the updated tree.  A failing `ASSERT_EQUAL` yields `none`.  Each `for` loop over the
children is the function with suffix `Each` that follows its owner. -/

mutual
/-- `AdminSuburbsMarker::MarkSuburbs`. -/
def MarkSuburbs (tree : Node) : Option Node :=
  match tree with
  | .mk region children =>
    if region.GetLevel = PlaceLevel.Locality then
      MarkLocality (.mk region children)
    else do
      let children ← MarkSuburbsEach children
      return .mk region children

/-- The loop `for (auto & subtree : tree->GetChildren()) MarkSuburbs(subtree)`. -/
def MarkSuburbsEach (subtrees : List Node) : Option (List Node) :=
  match subtrees with
  | [] => some []
  | subtree :: rest => do
    let subtree ← MarkSuburbs subtree
    let rest ← MarkSuburbsEach rest
    return subtree :: rest

/-- `AdminSuburbsMarker::MarkLocality`; the assertion is its first statement. -/
def MarkLocality (tree : Node) : Option Node :=
  match tree with
  | .mk region children =>
    if region.GetLevel ≠ PlaceLevel.Locality then none
    else do
      let children ← MarkSuburbsInLocalityEach children
      return .mk region children

/-- The loop `for (auto & subtree : tree->GetChildren()) MarkSuburbsInLocality(subtree)`. -/
def MarkSuburbsInLocalityEach (subtrees : List Node) : Option (List Node) :=
  match subtrees with
  | [] => some []
  | subtree :: rest => do
    let subtree ← MarkSuburbsInLocality subtree
    let rest ← MarkSuburbsInLocalityEach rest
    return subtree :: rest

/-- `AdminSuburbsMarker::MarkSuburbsInLocality`. -/
def MarkSuburbsInLocality (tree : Node) : Option Node :=
  match tree with
  | .mk region children =>
    if region.GetLevel = PlaceLevel.Locality then
      MarkLocality (.mk region children)
    else do
      let region :=
        if region.GetAdminLevel ≠ AdminLevel.Unknown then region.SetLevel PlaceLevel.Suburb
        else region
      let children ← MarkUnderLocalityAsSublocalitiesEach children
      return .mk region children

/-- The loop `for (auto & subtree : tree->GetChildren())
MarkUnderLocalityAsSublocalities(subtree)`. -/
def MarkUnderLocalityAsSublocalitiesEach (subtrees : List Node) : Option (List Node) :=
  match subtrees with
  | [] => some []
  | subtree :: rest => do
    let subtree ← MarkUnderLocalityAsSublocalities subtree
    let rest ← MarkUnderLocalityAsSublocalitiesEach rest
    return subtree :: rest

/-- `AdminSuburbsMarker::MarkUnderLocalityAsSublocalities`. -/
def MarkUnderLocalityAsSublocalities (tree : Node) : Option Node :=
  match tree with
  | .mk region children =>
    let level := region.GetLevel
    if level = PlaceLevel.Locality then
      MarkLocality (.mk region children)
    else do
      let region :=
        if level = PlaceLevel.Suburb then region.SetLevel PlaceLevel.Sublocality
        else if level = PlaceLevel.Unknown ∧ region.GetAdminLevel ≠ AdminLevel.Unknown then
          region.SetLevel PlaceLevel.Sublocality
        else region
      let children ← MarkUnderLocalityAsSublocalitiesEach children
      return .mk region children
end


/-- Number of edges from a child up to its nearest Locality ancestor, given that number `k`
for the parent (`none`: no Locality ancestor). -/
def childDistance (k : Option Nat) (region : Region) : Option Nat :=
  if region.GetLevel = PlaceLevel.Locality then some 1 else k.map (· + 1)

/-- Level after the pass of a non-Locality node that lies `k` edges below its nearest Locality
ancestor: for `k = 1`, Suburb when the admin level is not Unknown and the original level
otherwise; for `k ≥ 2`, Sublocality when the original level is Suburb, or is Unknown with admin
level not Unknown, and the original level otherwise. -/
def specLevel (k : Nat) (level : PlaceLevel) (adminLevel : AdminLevel) : PlaceLevel :=
  if k = 1 then
    (if adminLevel ≠ AdminLevel.Unknown then PlaceLevel.Suburb else level)
  else if 2 ≤ k then
    (if level = PlaceLevel.Suburb ∨
        (level = PlaceLevel.Unknown ∧ adminLevel ≠ AdminLevel.Unknown) then
      PlaceLevel.Sublocality
    else level)
  else level

/-- Data of a node after the pass, given the distance `k` to its nearest Locality ancestor:
unchanged for a Locality node and for a node without Locality ancestor. -/
def relabelRegion (k : Option Nat) (region : Region) : Region :=
  if region.GetLevel = PlaceLevel.Locality then region
  else match k with
    | none => region
    | some k => region.SetLevel (specLevel k region.GetLevel region.GetAdminLevel)

mutual
/-- The tree after the pass, described by depth below the nearest Locality ancestor. -/
def relabel (k : Option Nat) : Node → Node
  | .mk region children =>
    .mk (relabelRegion k region) (relabelEach (childDistance k region) children)
/-- The pass on a list of sibling subtrees. -/
def relabelEach (k : Option Nat) : List Node → List Node
  | [] => []
  | subtree :: rest => relabel k subtree :: relabelEach k rest
end

/-- The node reached from the root by following the child indices of `path`. -/
def Node.subtreeAt : Node → List Nat → Option Node
  | tree, [] => some tree
  | .mk _ children, i :: path =>
    match children[i]? with
    | none => none
    | some child => child.subtreeAt path

/-- Number of edges from the node at `path` up to its nearest Locality ancestor (`none` when
it has none, or when the path leaves the tree); `k` is that number for the root. -/
def Node.localityDistance : Node → Option Nat → List Nat → Option Nat
  | _, k, [] => k
  | .mk region children, k, i :: path =>
    match children[i]? with
    | none => none
    | some child => child.localityDistance (childDistance k region) path

/-- A region tree: a Locality with one administrative child, which has a Suburb child. -/
def sampleTree : Node :=
  .mk ⟨.Locality, .Unknown⟩ [.mk ⟨.Unknown, .known 8⟩ [.mk ⟨.Suburb, .Unknown⟩ []]]

end generator.regions

namespace search

/-! ## Auxiliary facts -/

theorem stdMin_eq_min (a b : ℚ) : stdMin a b = min a b := by
  unfold stdMin
  by_cases h : b < a
  · rw [if_pos h, min_eq_right h.le]
  · rw [if_neg h, min_eq_left (not_lt.mp h)]

theorem TransformDistance_eq (d : ℚ) : TransformDistance d = min d 2000000 / 2000000 := by
  unfold TransformDistance
  rw [stdMin_eq_min]
  rfl

theorem TransformDistance_of_le (d : ℚ) (h : d ≤ 2000000) :
    TransformDistance d = d / 2000000 := by
  rw [TransformDistance_eq, min_eq_left h]

theorem TransformDistance_of_ge (d : ℚ) (h : 2000000 ≤ d) : TransformDistance d = 1 := by
  rw [TransformDistance_eq, min_eq_right h]
  norm_num

theorem TransformRating_zero (ugc : UGC) (value : ℚ) : TransformRating ugc (0, value) = 0 := by
  simp [TransformRating, Id.run]

theorem TransformRating_zero_pair (ugc : UGC) : TransformRating ugc 0 = 0 :=
  TransformRating_zero ugc 0

theorem TransformRating_of_ne_zero (ugc : UGC) (c : Nat) (value : ℚ) (hc : c ≠ 0) :
    TransformRating ugc (c, value) =
      (value - 7.6) / (ugc.kMaxRating - ugc.kRatingDetalizationThreshold) * ((c : ℚ) / 3) := by
  simp [TransformRating, Id.run, hc, kAverageRating]

theorem GetLinearModelRank_categorial (ugc : UGC) (info : RankingInfo)
    (h : info.m_categorialRequest = true) :
    info.GetLinearModelRank ugc = some
      (kDistanceToPivot * TransformDistance info.m_distanceToPivot +
        kRank * ((info.m_rank : ℚ) / 255) + kPopularity * ((info.m_popularity : ℚ) / 255) +
        kRating * TransformRating ugc info.m_rating + boolToDouble info.m_falseCats * kFalseCats +
        boolToDouble info.m_hasName * kHasName) := by
  simp [RankingInfo.GetLinearModelRank, h]

theorem GetLinearModelRank_freeText (ugc : UGC) (info : RankingInfo)
    (h : info.m_categorialRequest = false) :
    info.GetLinearModelRank ugc =
      (kType[info.m_type]?).bind fun wType =>
      (kNameScore[specEffectiveNameScore info]?).bind fun wName =>
      some (kDistanceToPivot * TransformDistance info.m_distanceToPivot +
        kRank * ((info.m_rank : ℚ) / 255) + kPopularity * ((info.m_popularity : ℚ) / 255) +
        kRating * TransformRating ugc info.m_rating + boolToDouble info.m_falseCats * kFalseCats +
        wType + wName + kErrorsMade * info.GetErrorsMade +
        kMatchedFraction * info.m_matchedFraction +
        (if info.m_allTokensUsed then 1 else 0) * kAllTokensUsed) := by
  simp only [RankingInfo.GetLinearModelRank, specEffectiveNameScore, h]
  simp
  split <;> rfl

theorem kType_length : kType.length = 8 := rfl

theorem kNameScore_length : kNameScore.length = 4 := rfl

theorem specEffectiveNameScore_lt (info : RankingInfo) (h : info.m_nameScore < NAME_SCORE_COUNT) :
    specEffectiveNameScore info < kNameScore.length := by
  unfold specEffectiveNameScore
  split
  · decide
  · exact h

theorem GetLinearModelRank_isSome_of_declared (ugc : UGC) (info : RankingInfo)
    (h : info.EnumsDeclared) : ∃ s : ℚ, info.GetLinearModelRank ugc = some s := by
  have ht : info.m_type < kType.length := h.1
  have he : specEffectiveNameScore info < kNameScore.length :=
    specEffectiveNameScore_lt info h.2
  rcases Bool.eq_false_or_eq_true info.m_categorialRequest with hc | hc
  · exact ⟨_, GetLinearModelRank_categorial ugc info hc⟩
  · rw [GetLinearModelRank_freeText ugc info hc, List.getElem?_eq_getElem ht,
      List.getElem?_eq_getElem he]
    exact ⟨_, rfl⟩

theorem RankingInfo.WellFormed.enumsDeclared {info : RankingInfo} (h : info.WellFormed) :
    info.EnumsDeclared := h.2.2.2.2.1

theorem TransformDistance_mono {d1 d2 : ℚ} (h : d1 ≤ d2) :
    TransformDistance d1 ≤ TransformDistance d2 := by
  rw [TransformDistance_eq, TransformDistance_eq]
  exact div_le_div_of_nonneg_right (min_le_min h le_rfl) (by norm_num)

theorem kNameScore_zero_le (i : Nat) (w : ℚ) (h : kNameScore[i]? = some w) :
    (-0.1752510 : ℚ) ≤ w := by
  have hi : i < 4 := by
    by_contra hc
    rw [List.getElem?_eq_none (by rw [kNameScore_length]; omega)] at h
    exact Option.noConfusion h
  interval_cases i <;> simp [kNameScore] at h <;> subst h <;> norm_num

theorem ToCSV_eq (labels : DebugLabels) (ugc : UGC) (info : RankingInfo) (os : OStream) :
    info.ToCSV labels ugc os =
      some { os with
        buf := os.buf ++ ",".intercalate (csvFields labels ugc info os), fixed := true } := by
  rcases os with ⟨buf, alpha, fx, prec⟩
  cases alpha <;>
  · simp only [RankingInfo.ToCSV, OStream.putDouble, OStream.setFixed, OStream.write,
      OStream.putInt, OStream.putBool, csvFields, boolText, String.intercalate,
      String.intercalate.go]
    simp [String.append_assoc]

theorem PrintCSVHeader_eq (os : OStream) :
    PrintCSVHeader os = { os with buf := os.buf ++ ",".intercalate csvHeaderNames } := by
  simp only [PrintCSVHeader, OStream.write, csvHeaderNames, String.intercalate,
    String.intercalate.go]
  simp [String.append_assoc]

theorem commaCount_append (a b : String) :
    commaCount (a ++ b) = commaCount a + commaCount b := by
  simp [commaCount, String.data_append, List.count_append]

theorem digitChar_ne_comma (m : Nat) (h : m < 10) : Nat.digitChar m ≠ ',' := by
  interval_cases m <;> decide

theorem toDigitsCore_ne_comma (fuel : Nat) : ∀ (n : Nat) (ds : List Char),
    (∀ c ∈ ds, c ≠ ',') → ∀ c ∈ Nat.toDigitsCore 10 fuel n ds, c ≠ ',' := by
  induction fuel with
  | zero => intro n ds h; simpa [Nat.toDigitsCore] using h
  | succ fuel ih =>
    intro n ds h
    have hd : ∀ c ∈ Nat.digitChar (n % 10) :: ds, c ≠ ',' := by
      intro c hc
      rcases List.mem_cons.mp hc with rfl | hc
      · exact digitChar_ne_comma _ (Nat.mod_lt _ (by decide))
      · exact h c hc
    simp only [Nat.toDigitsCore]
    split
    · exact hd
    · exact ih _ _ hd

theorem commaCount_natToString (n : Nat) : commaCount (toString n) = 0 := by
  unfold commaCount
  rw [List.count_eq_zero]
  intro hmem
  exact toDigitsCore_ne_comma _ _ [] (by simp) ',' hmem rfl

theorem commaCount_natCastToString (n : Nat) : commaCount (toString (n : Int)) = 0 :=
  commaCount_natToString n

theorem commaCount_flagToString (b : Bool) :
    commaCount (toString (if b then 1 else 0 : Int)) = 0 := by
  cases b <;> decide

theorem commaCount_boolText (alpha b : Bool) : commaCount (boolText alpha b) = 0 := by
  cases alpha <;> cases b <;> decide

theorem commaCount_fixedDigits (precision scaled : Nat) :
    commaCount (fixedDigits precision scaled) = 0 := by
  unfold fixedDigits
  by_cases hp : precision = 0
  · simp only [hp, if_true]
    exact commaCount_natToString _
  · simp only [hp, if_false]
    rw [commaCount_append, commaCount_append, commaCount_append, commaCount_natToString,
      commaCount_natToString]
    have h1 : commaCount "." = 0 := by decide
    have h2 : ∀ k : Nat, commaCount (String.mk (List.replicate k '0')) = 0 := by
      intro k
      unfold commaCount
      rw [List.count_eq_zero]
      intro hmem
      have := List.eq_of_mem_replicate hmem
      exact absurd this (by decide)
    rw [h1, h2]

theorem commaCount_formatFixed (precision : Nat) (x : ℚ) :
    commaCount (formatFixed precision x) = 0 := by
  unfold formatFixed
  by_cases hx : x < 0
  · simp only [hx, if_true]
    rw [commaCount_append, commaCount_fixedDigits]
    decide
  · simp only [hx, if_false]
    exact commaCount_fixedDigits _ _

theorem roundHalfEven_natCast (n : Nat) : roundHalfEven (n : ℚ) = n := by
  simp [roundHalfEven]

theorem formatFixed_natCast (precision n : Nat) :
    formatFixed precision (n : ℚ) = fixedDigits precision (n * 10 ^ precision) := by
  have h1 : |(n : ℚ)| * 10 ^ precision = ((n * 10 ^ precision : Nat) : ℚ) := by
    rw [abs_of_nonneg (Nat.cast_nonneg n)]
    push_cast
    ring
  have h2 : ¬ ((n : ℚ) < 0) := not_lt.mpr (Nat.cast_nonneg n)
  simp only [formatFixed, h1, roundHalfEven_natCast, h2, if_false]

theorem formatFixed_zero : formatFixed 6 (0 : ℚ) = "0.000000" := by
  have h := formatFixed_natCast 6 0
  rw [Nat.cast_zero] at h
  rw [h]
  decide

theorem formatFixed_one : formatFixed 6 (1 : ℚ) = "1.000000" := by
  have h := formatFixed_natCast 6 1
  rw [Nat.cast_one] at h
  rw [h]
  decide

theorem sampleLabels_nameScore_commaFree (i : Nat) :
    commaCount (sampleLabels.nameScore i) = 0 := by
  rcases i with _ | _ | _ | _ | i
  · decide
  · decide
  · decide
  · decide
  · show commaCount "Count" = 0
    decide

theorem sampleLabels_searchType_commaFree (i : Nat) :
    commaCount (sampleLabels.searchType i) = 0 := by
  rcases i with _ | _ | _ | _ | _ | _ | _ | _ | i
  · decide
  · decide
  · decide
  · decide
  · decide
  · decide
  · decide
  · decide
  · show commaCount "Count" = 0
    decide

/-! ## Auxiliary facts on binary64 rounding -/

theorem roundHalfEven_eq_of_close (q : ℚ) (m : Nat) (h : |q - m| < 1 / 2) :
    roundHalfEven q = m := by
  rw [abs_lt] at h
  obtain ⟨h1, h2⟩ := h
  by_cases hq : (m : ℚ) ≤ q
  · have hf : ⌊q⌋₊ = m := by
      rw [Nat.floor_eq_iff (le_trans (Nat.cast_nonneg m) hq)]
      constructor <;> linarith
    simp only [roundHalfEven, hf]
    rw [if_pos (by linarith)]
  · push_neg at hq
    by_cases h0 : 0 ≤ q
    · have hm : 1 ≤ m := by
        by_contra hc
        have : m = 0 := by omega
        subst this
        simp at hq
        linarith
      have hf : ⌊q⌋₊ = m - 1 := by
        rw [Nat.floor_eq_iff h0]
        have : ((m - 1 : Nat) : ℚ) = (m : ℚ) - 1 := by
          push_cast [Nat.cast_sub hm]; ring
        rw [this]
        constructor <;> linarith
      have hc : ((m - 1 : Nat) : ℚ) = (m : ℚ) - 1 := by
        push_cast [Nat.cast_sub hm]; ring
      simp only [roundHalfEven, hf, hc]
      rw [if_neg (by linarith), if_pos (by linarith)]
      omega
    · push_neg at h0
      have hm : m = 0 := by
        by_contra hc
        have : (1 : ℚ) ≤ m := by exact_mod_cast Nat.one_le_iff_ne_zero.mpr hc
        linarith
      subst hm
      have hf : ⌊q⌋₊ = 0 := Nat.floor_of_nonpos h0.le
      simp only [roundHalfEven, hf]
      rw [if_pos (by simp; linarith)]

theorem roundHalfEven_bounds (q : ℚ) : ⌊q⌋₊ ≤ roundHalfEven q ∧ roundHalfEven q ≤ ⌊q⌋₊ + 1 := by
  simp only [roundHalfEven]
  split_ifs <;> omega

theorem roundHalfEven_mono {q1 q2 : ℚ} (h : q1 ≤ q2) : roundHalfEven q1 ≤ roundHalfEven q2 := by
  have hf : ⌊q1⌋₊ ≤ ⌊q2⌋₊ := Nat.floor_mono h
  rcases Nat.lt_or_eq_of_le hf with hlt | heq
  · exact le_trans (roundHalfEven_bounds q1).2 (le_trans hlt (roundHalfEven_bounds q2).1)
  · simp only [roundHalfEven, heq]
    split_ifs <;> first | omega | (exfalso; linarith)

theorem log_eq_of_bounds {x : ℚ} {n : ℤ} (hlo : (2 : ℚ) ^ n ≤ x) (hhi : x < (2 : ℚ) ^ (n + 1)) :
    Int.log 2 x = n := by
  have hx : 0 < x := lt_of_lt_of_le (by positivity) hlo
  have h1 : n ≤ Int.log 2 x := (Int.zpow_le_iff_le_log (by norm_num) hx).mp (by exact_mod_cast hlo)
  have h2 : Int.log 2 x < n + 1 :=
    (Int.lt_zpow_iff_log_lt (by norm_num) hx).mp (by exact_mod_cast hhi)
  omega

theorem log_bounds {x : ℚ} (hx : 0 < x) :
    (2 : ℚ) ^ Int.log 2 x ≤ x ∧ x < (2 : ℚ) ^ (Int.log 2 x + 1) := by
  constructor
  · exact_mod_cast Int.zpow_log_le_self (b := 2) (by norm_num) hx
  · exact_mod_cast Int.lt_zpow_succ_log_self (b := 2) (by norm_num) x

theorem roundMagnitude_zero : roundMagnitude 0 = 0 := by
  simp [roundMagnitude, roundHalfEven]

theorem roundMagnitude_nonneg (x : ℚ) : 0 ≤ roundMagnitude x := by
  unfold roundMagnitude
  positivity

theorem roundMagnitude_eq_of_close (x : ℚ) (m : Nat) (e : ℤ)
    (hlo : (2 : ℚ) ^ (e + 52) ≤ x) (hhi : x < (2 : ℚ) ^ (e + 52 + 1))
    (hc : |x / 2 ^ e - m| < 1 / 2) : roundMagnitude x = m * 2 ^ e := by
  have hl : Int.log 2 x = e + 52 := log_eq_of_bounds hlo hhi
  simp only [roundMagnitude, hl]
  have : e + 52 - 52 = e := by ring
  rw [this, roundHalfEven_eq_of_close _ m hc]

theorem scaled_bounds {x : ℚ} (hx : 0 < x) :
    (2 : ℚ) ^ 52 ≤ x / 2 ^ (Int.log 2 x - 52) ∧ x / 2 ^ (Int.log 2 x - 52) ≤ (2 : ℚ) ^ 53 := by
  obtain ⟨h1, h2⟩ := log_bounds hx
  have hp : (0 : ℚ) < 2 ^ (Int.log 2 x - 52) := by positivity
  have e1 : (2 : ℚ) ^ Int.log 2 x = 2 ^ 52 * 2 ^ (Int.log 2 x - 52) := by
    rw [← zpow_natCast, ← zpow_add₀ (by norm_num)]
    congr 1
    push_cast
    ring
  have e2 : (2 : ℚ) ^ (Int.log 2 x + 1) = 2 ^ 53 * 2 ^ (Int.log 2 x - 52) := by
    rw [← zpow_natCast, ← zpow_add₀ (by norm_num)]
    congr 1
    push_cast
    ring
  constructor
  · rw [le_div_iff₀ hp, ← e1]
    exact h1
  · rw [div_le_iff₀ hp, ← e2]
    exact h2.le

theorem roundMagnitude_bounds {x : ℚ} (hx : 0 < x) :
    (2 : ℚ) ^ Int.log 2 x ≤ roundMagnitude x ∧
    roundMagnitude x ≤ (2 : ℚ) ^ (Int.log 2 x + 1) := by
  obtain ⟨h1, h2⟩ := scaled_bounds hx
  have hp : (0 : ℚ) < 2 ^ (Int.log 2 x - 52) := by positivity
  have c1 : ((2 ^ 52 : Nat) : ℚ) = 2 ^ 52 := by norm_num
  have c2 : ((2 ^ 53 : Nat) : ℚ) = 2 ^ 53 := by norm_num
  have r1 : 2 ^ 52 ≤ roundHalfEven (x / 2 ^ (Int.log 2 x - 52)) := by
    have := @roundHalfEven_mono ((2 ^ 52 : Nat) : ℚ) (x / 2 ^ (Int.log 2 x - 52))
      (by rw [c1]; exact h1)
    rwa [roundHalfEven_natCast] at this
  have r2 : roundHalfEven (x / 2 ^ (Int.log 2 x - 52)) ≤ 2 ^ 53 := by
    have := @roundHalfEven_mono (x / 2 ^ (Int.log 2 x - 52)) ((2 ^ 53 : Nat) : ℚ)
      (by rw [c2]; exact h2)
    rwa [roundHalfEven_natCast] at this
  have e1 : (2 : ℚ) ^ Int.log 2 x = 2 ^ 52 * 2 ^ (Int.log 2 x - 52) := by
    rw [← zpow_natCast, ← zpow_add₀ (by norm_num)]
    congr 1
    push_cast
    ring
  have e2 : (2 : ℚ) ^ (Int.log 2 x + 1) = 2 ^ 53 * 2 ^ (Int.log 2 x - 52) := by
    rw [← zpow_natCast, ← zpow_add₀ (by norm_num)]
    congr 1
    push_cast
    ring
  unfold roundMagnitude
  simp only
  rw [e1, e2]
  constructor
  · apply mul_le_mul_of_nonneg_right _ hp.le
    exact_mod_cast r1
  · apply mul_le_mul_of_nonneg_right _ hp.le
    exact_mod_cast r2

theorem roundMagnitude_mono {x y : ℚ} (hx : 0 ≤ x) (h : x ≤ y) :
    roundMagnitude x ≤ roundMagnitude y := by
  rcases eq_or_lt_of_le hx with h0 | hpos
  · rw [← h0, roundMagnitude_zero]
    exact roundMagnitude_nonneg y
  · have hy : 0 < y := lt_of_lt_of_le hpos h
    have hlog : Int.log 2 x ≤ Int.log 2 y := Int.log_mono_right hpos h
    rcases lt_or_eq_of_le hlog with hlt | heq
    · have h1 := (roundMagnitude_bounds hpos).2
      have h2 := (roundMagnitude_bounds hy).1
      have h3 : (2 : ℚ) ^ (Int.log 2 x + 1) ≤ 2 ^ Int.log 2 y :=
        zpow_le_zpow_right₀ (by norm_num) (by omega)
      linarith
    · unfold roundMagnitude
      simp only [heq]
      have hp : (0 : ℚ) < 2 ^ (Int.log 2 y - 52) := by positivity
      apply mul_le_mul_of_nonneg_right _ hp.le
      have : x / 2 ^ (Int.log 2 y - 52) ≤ y / 2 ^ (Int.log 2 y - 52) :=
        div_le_div_of_nonneg_right h hp.le
      exact_mod_cast roundHalfEven_mono this

theorem roundMagnitude_two_mul (x : ℚ) (hx : 0 ≤ x) :
    roundMagnitude (2 * x) = 2 * roundMagnitude x := by
  rcases eq_or_lt_of_le hx with h0 | hpos
  · rw [← h0]; simp [roundMagnitude_zero]
  · obtain ⟨h1, h2⟩ := log_bounds hpos
    have hl : Int.log 2 (2 * x) = Int.log 2 x + 1 := by
      apply log_eq_of_bounds
      · rw [zpow_add_one₀ (by norm_num)]; linarith
      · rw [zpow_add_one₀ (by norm_num : (2 : ℚ) ≠ 0) (Int.log 2 x + 1)]; linarith
    simp only [roundMagnitude, hl]
    have he : Int.log 2 x + 1 - 52 = (Int.log 2 x - 52) + 1 := by ring
    rw [he, zpow_add_one₀ (by norm_num : (2 : ℚ) ≠ 0)]
    have hq : 2 * x / (2 ^ (Int.log 2 x - 52) * 2) = x / 2 ^ (Int.log 2 x - 52) := by
      field_simp
      ring
    rw [hq]
    ring

theorem roundDouble_zero : roundDouble 0 = 0 := by
  simp [roundDouble, roundMagnitude_zero]

theorem roundDouble_of_nonneg {x : ℚ} (hx : 0 ≤ x) : roundDouble x = roundMagnitude x := by
  simp [roundDouble, not_lt.mpr hx]

theorem roundDouble_of_neg {x : ℚ} (hx : x < 0) : roundDouble x = -roundMagnitude (-x) := by
  simp [roundDouble, hx]

theorem roundDouble_neg (x : ℚ) : roundDouble (-x) = -roundDouble x := by
  rcases lt_trichotomy x 0 with h | h | h
  · rw [roundDouble_of_neg h, roundDouble_of_nonneg (by linarith), neg_neg]
  · subst h; simp [roundDouble_zero]
  · rw [roundDouble_of_neg (by linarith : -x < 0), roundDouble_of_nonneg h.le, neg_neg]

theorem roundDouble_mono {x y : ℚ} (h : x ≤ y) : roundDouble x ≤ roundDouble y := by
  by_cases hx : x < 0
  · by_cases hy : y < 0
    · rw [roundDouble_of_neg hx, roundDouble_of_neg hy]
      have := roundMagnitude_mono (x := -y) (y := -x) (by linarith) (by linarith)
      linarith
    · rw [roundDouble_of_neg hx, roundDouble_of_nonneg (not_lt.mp hy)]
      have h1 := roundMagnitude_nonneg (-x)
      have h2 := roundMagnitude_nonneg y
      linarith
  · have hx0 : 0 ≤ x := not_lt.mp hx
    rw [roundDouble_of_nonneg hx0, roundDouble_of_nonneg (le_trans hx0 h)]
    exact roundMagnitude_mono hx0 h

theorem roundDouble_two_mul (x : ℚ) : roundDouble (2 * x) = 2 * roundDouble x := by
  by_cases hx : x < 0
  · rw [roundDouble_of_neg hx, roundDouble_of_neg (by linarith : 2 * x < 0)]
    have : -(2 * x) = 2 * (-x) := by ring
    rw [this, roundMagnitude_two_mul _ (by linarith)]
    ring
  · have hx0 : 0 ≤ x := not_lt.mp hx
    rw [roundDouble_of_nonneg hx0, roundDouble_of_nonneg (by linarith : (0 : ℚ) ≤ 2 * x)]
    exact roundMagnitude_two_mul x hx0

theorem roundDouble_nonpos {x : ℚ} (h : x ≤ 0) : roundDouble x ≤ 0 := by
  have := roundDouble_mono h
  rwa [roundDouble_zero] at this

theorem roundDouble_nonneg {x : ℚ} (h : 0 ≤ x) : 0 ≤ roundDouble x := by
  have := roundDouble_mono h
  rwa [roundDouble_zero] at this

theorem roundDouble_eq_of_close (x : ℚ) (m k : Nat)
    (hlo : (2 : ℚ) ^ 52 ≤ x * 2 ^ k) (hhi : x * 2 ^ k < (2 : ℚ) ^ 53)
    (hc : |x * 2 ^ k - m| < 1 / 2) : roundDouble x = m / 2 ^ k := by
  have hk : (0 : ℚ) < 2 ^ k := by positivity
  have hx : 0 < x := by
    by_contra hn
    have : x * 2 ^ k ≤ 0 := mul_nonpos_of_nonpos_of_nonneg (not_lt.mp hn) hk.le
    have : (0 : ℚ) < 2 ^ 52 := by positivity
    linarith
  rw [roundDouble_of_nonneg hx.le]
  have hz : (2 : ℚ) ^ (-(k : ℤ)) = 1 / 2 ^ k := by
    rw [zpow_neg, zpow_natCast, one_div]
  have h := roundMagnitude_eq_of_close x m (-(k : ℤ)) ?_ ?_ ?_
  · rw [h, hz]; ring
  · rw [zpow_add₀ (by norm_num), hz]
    rw [show ((52 : ℤ)) = ((52 : ℕ) : ℤ) from rfl, zpow_natCast]
    rw [one_div, ← div_eq_inv_mul, div_le_iff₀ hk]
    exact hlo
  · rw [show (-(k : ℤ) + 52 + 1) = -(k : ℤ) + ((53 : ℕ) : ℤ) by push_cast; ring,
      zpow_add₀ (by norm_num), hz, zpow_natCast]
    rw [one_div, ← div_eq_inv_mul, lt_div_iff₀ hk]
    exact hhi
  · rw [hz]
    have : x / (1 / 2 ^ k) = x * 2 ^ k := by field_simp
    rw [this]
    exact hc

theorem roundDouble_eval (x y : ℚ) (m k : Nat) (hy : y = m / 2 ^ k)
    (hlo : (2 : ℚ) ^ 52 ≤ x * 2 ^ k) (hhi : x * 2 ^ k < (2 : ℚ) ^ 53)
    (hc : |x * 2 ^ k - m| < 1 / 2) : roundDouble x = y := by
  rw [hy]
  exact roundDouble_eq_of_close x m k hlo hhi hc

theorem roundDouble_eval_neg (x y : ℚ) (m k : Nat) (hy : y = -(m / 2 ^ k))
    (hlo : (2 : ℚ) ^ 52 ≤ -x * 2 ^ k) (hhi : -x * 2 ^ k < (2 : ℚ) ^ 53)
    (hc : |-x * 2 ^ k - m| < 1 / 2) : roundDouble x = y := by
  rw [hy, ← roundDouble_eq_of_close (-x) m k hlo hhi hc, roundDouble_neg, neg_neg]

theorem roundHalfEven_scaled_bounds {x : ℚ} (hx : 0 < x) :
    2 ^ 52 ≤ roundHalfEven (x / 2 ^ (Int.log 2 x - 52)) ∧
    roundHalfEven (x / 2 ^ (Int.log 2 x - 52)) ≤ 2 ^ 53 := by
  obtain ⟨h1, h2⟩ := scaled_bounds hx
  have c1 : ((2 ^ 52 : Nat) : ℚ) = 2 ^ 52 := by norm_num
  have c2 : ((2 ^ 53 : Nat) : ℚ) = 2 ^ 53 := by norm_num
  constructor
  · have := @roundHalfEven_mono ((2 ^ 52 : Nat) : ℚ) (x / 2 ^ (Int.log 2 x - 52))
      (by rw [c1]; exact h1)
    rwa [roundHalfEven_natCast] at this
  · have := @roundHalfEven_mono (x / 2 ^ (Int.log 2 x - 52)) ((2 ^ 53 : Nat) : ℚ)
      (by rw [c2]; exact h2)
    rwa [roundHalfEven_natCast] at this

theorem roundMagnitude_idem {x : ℚ} (hx : 0 ≤ x) :
    roundMagnitude (roundMagnitude x) = roundMagnitude x := by
  rcases eq_or_lt_of_le hx with h0 | hpos
  · rw [← h0, roundMagnitude_zero, roundMagnitude_zero]
  · obtain ⟨b1, b2⟩ := roundHalfEven_scaled_bounds hpos
    have hval : roundMagnitude x =
        (roundHalfEven (x / 2 ^ (Int.log 2 x - 52)) : ℚ) * 2 ^ (Int.log 2 x - 52) := rfl
    generalize roundHalfEven (x / 2 ^ (Int.log 2 x - 52)) = M at b1 b2 hval
    generalize Int.log 2 x - 52 = e at hval
    rw [hval]
    have hp : (0 : ℚ) < 2 ^ e := by positivity
    have q1 : (2 : ℚ) ^ 52 ≤ (M : ℚ) := by exact_mod_cast b1
    have q2 : (M : ℚ) ≤ (2 : ℚ) ^ 53 := by exact_mod_cast b2
    have z52 : (2 : ℚ) ^ (e + 52) = 2 ^ 52 * 2 ^ e := by
      rw [zpow_add₀ (by norm_num), mul_comm]
      norm_cast
    have z53 : (2 : ℚ) ^ (e + 52 + 1) = 2 ^ 53 * 2 ^ e := by
      rw [zpow_add_one₀ (by norm_num), z52]
      ring
    rcases lt_or_eq_of_le b2 with hlt | heq
    · have q3 : (M : ℚ) < (2 : ℚ) ^ 53 := by exact_mod_cast hlt
      apply roundMagnitude_eq_of_close
      · rw [z52]
        exact mul_le_mul_of_nonneg_right q1 hp.le
      · rw [z53]
        exact mul_lt_mul_of_pos_right q3 hp
      · rw [mul_div_assoc, div_self hp.ne', mul_one, sub_self, abs_zero]
        norm_num
    · have hM : (M : ℚ) = 2 ^ 53 := by exact_mod_cast heq
      have z1 : (2 : ℚ) ^ (e + 1) = 2 * 2 ^ e := by
        rw [zpow_add_one₀ (by norm_num)]
        ring
      have hre : (M : ℚ) * 2 ^ e = ((2 ^ 52 : Nat) : ℚ) * 2 ^ (e + 1) := by
        rw [hM, z1]
        push_cast
        ring
      rw [hre]
      apply roundMagnitude_eq_of_close
      · rw [show e + 1 + 52 = (e + 52) + 1 by ring, z53, z1]
        push_cast
        apply le_of_eq
        ring
      · rw [show e + 1 + 52 + 1 = (e + 52 + 1) + 1 by ring,
          zpow_add_one₀ (by norm_num : (2 : ℚ) ≠ 0) (e + 52 + 1), z53, z1]
        push_cast
        nlinarith
      · have hp1 : (0 : ℚ) < 2 ^ (e + 1) := by positivity
        rw [mul_div_assoc, div_self hp1.ne', mul_one, sub_self, abs_zero]
        norm_num

theorem roundDouble_idem (x : ℚ) : roundDouble (roundDouble x) = roundDouble x := by
  by_cases hx : x < 0
  · rw [roundDouble_of_neg hx, roundDouble_neg,
      roundDouble_of_nonneg (roundMagnitude_nonneg _), roundMagnitude_idem (by linarith)]
  · have hx0 : 0 ≤ x := not_lt.mp hx
    rw [roundDouble_of_nonneg hx0, roundDouble_of_nonneg (roundMagnitude_nonneg _),
      roundMagnitude_idem hx0]

/-! ## Normalizers: distance -/

/-- C7: distance normalization equals `min(distance, 2,000,000) / 2,000,000` for every distance;
hence it is `0` at distance `0`, `1` at the ceiling and `1` for every distance above the
ceiling. -/
theorem TransformDistance_spec :
    (∀ d : ℚ, TransformDistance d = specDistanceNormalization d) ∧
    TransformDistance 0 = 0 ∧
    TransformDistance 2000000 = 1 ∧
    ∀ d : ℚ, 2000000 < d → TransformDistance d = 1 := by
  refine ⟨fun d => ?_, ?_, ?_, fun d hd => ?_⟩
  · rw [TransformDistance_eq]; rfl
  · rw [TransformDistance_of_le 0 (by norm_num)]; norm_num
  · exact TransformDistance_of_ge _ le_rfl
  · exact TransformDistance_of_ge d hd.le

theorem TransformDistance_spec_witness :
    (2000000 : ℚ) < 3500000 ∧ TransformDistance 3500000 = 1 :=
  ⟨by norm_num, TransformDistance_spec.2.2.2 3500000 (by norm_num)⟩

/-- C8: distance normalization is monotonic non-decreasing on nonnegative distances, and maps
every nonnegative distance into the interval `[0, 1]`. -/
theorem TransformDistance_mono_bounded :
    (∀ d1 d2 : ℚ, 0 ≤ d1 → d1 ≤ d2 → TransformDistance d1 ≤ TransformDistance d2) ∧
    (∀ d : ℚ, 0 ≤ d → 0 ≤ TransformDistance d ∧ TransformDistance d ≤ 1) := by
  constructor
  · intro d1 d2 _ h12
    rw [TransformDistance_eq, TransformDistance_eq]
    exact div_le_div_of_nonneg_right (min_le_min h12 le_rfl) (by norm_num)
  · intro d hd
    rw [TransformDistance_eq]
    constructor
    · exact div_nonneg (le_min hd (by norm_num)) (by norm_num)
    · rw [div_le_one (by norm_num)]
      exact min_le_right _ _

theorem TransformDistance_mono_bounded_witness :
    ((0 : ℚ) ≤ 500000 ∧ (500000 : ℚ) ≤ 1000000 ∧
      TransformDistance 500000 ≤ TransformDistance 1000000) ∧
    (0 ≤ TransformDistance 500000 ∧ TransformDistance 500000 ≤ 1) :=
  ⟨⟨by norm_num, by norm_num,
      TransformDistance_mono_bounded.1 500000 1000000 (by norm_num) (by norm_num)⟩,
    TransformDistance_mono_bounded.2 500000 (by norm_num)⟩

/-! ## Normalizers: rating -/

/-- C9: rating normalization returns `0` when the confidence count is `0`, whatever the value,
and otherwise `((value - 7.6) / (kMaxRating - kRatingDetalizationThreshold)) *
(confidenceCount / 3)`. -/
theorem TransformRating_spec (ugc : UGC) (confidenceCount : Nat) (value : ℚ) :
    TransformRating ugc (0, value) = 0 ∧
    TransformRating ugc (confidenceCount, value) =
      specRatingNormalization ugc confidenceCount value := by
  refine ⟨TransformRating_zero ugc value, ?_⟩
  unfold specRatingNormalization
  by_cases hc : confidenceCount = 0
  · subst hc
    rw [if_pos rfl]
    exact TransformRating_zero ugc value
  · rw [if_neg hc]
    exact TransformRating_of_ne_zero ugc confidenceCount value hc

/-- C10: for a fixed nonzero confidence count, and rating-scale constants with
`kMaxRating > kRatingDetalizationThreshold`, rating normalization is strictly increasing in the
rating value. -/
theorem TransformRating_strictMono (ugc : UGC) (confidenceCount : Nat) (v1 v2 : ℚ)
    (hscale : ugc.kRatingDetalizationThreshold < ugc.kMaxRating)
    (hc : confidenceCount ≠ 0) (hv : v1 < v2) :
    TransformRating ugc (confidenceCount, v1) < TransformRating ugc (confidenceCount, v2) := by
  rw [TransformRating_of_ne_zero ugc confidenceCount v1 hc,
    TransformRating_of_ne_zero ugc confidenceCount v2 hc]
  have hden : 0 < ugc.kMaxRating - ugc.kRatingDetalizationThreshold := sub_pos.mpr hscale
  have hcpos : (0 : ℚ) < (confidenceCount : ℚ) / 3 := by
    have : (0 : ℚ) < (confidenceCount : ℚ) := by exact_mod_cast Nat.pos_of_ne_zero hc
    positivity
  apply mul_lt_mul_of_pos_right _ hcpos
  apply div_lt_div_of_pos_right _ hden
  linarith

theorem TransformRating_strictMono_witness :
    TransformRating ⟨10, 4⟩ (2, 5) < TransformRating ⟨10, 4⟩ (2, 9) :=
  TransformRating_strictMono ⟨10, 4⟩ 2 5 9 (by norm_num) (by decide) (by norm_num)

/-! ## The linear scorer -/

/-- C1: for every feature vector whose type and name-match quality are declared variants,
`GetLinearModelRank` returns exactly the sum of the always-accumulated terms (distance, rank,
popularity, rating, falseCats) plus, for a free-text query, the type coefficient, the
coefficient of the effective name score, the error term, the matched-fraction term and the
allTokensUsed term, and, for a categorial query, the hasName term only. -/
theorem GetLinearModelRank_eq_spec (ugc : UGC) (info : RankingInfo)
    (h : info.EnumsDeclared) :
    ∃ wType wName : ℚ,
      kType[info.m_type]? = some wType ∧
      kNameScore[specEffectiveNameScore info]? = some wName ∧
      info.GetLinearModelRank ugc = some (specLinearModelRank ugc info wType wName) := by
  have ht : info.m_type < kType.length := h.1
  have hn : specEffectiveNameScore info < kNameScore.length :=
    specEffectiveNameScore_lt info h.2
  refine ⟨kType[info.m_type], kNameScore[specEffectiveNameScore info],
    List.getElem?_eq_getElem ht, List.getElem?_eq_getElem hn, ?_⟩
  cases hc : info.m_categorialRequest
  · rw [GetLinearModelRank_freeText ugc info hc, List.getElem?_eq_getElem ht,
      List.getElem?_eq_getElem hn]
    simp only [Option.some_bind, specLinearModelRank, hc, boolToDouble, iverson]
    congr 1
    cases info.m_allTokensUsed <;> simp <;> ring
  · rw [GetLinearModelRank_categorial ugc info hc]
    simp only [specLinearModelRank, boolToDouble, iverson]
    congr 1
    simp [hc]

theorem GetLinearModelRank_eq_spec_witness :
    nearCandidate.EnumsDeclared ∧
    ∃ wType wName : ℚ,
      kType[nearCandidate.m_type]? = some wType ∧
      kNameScore[specEffectiveNameScore nearCandidate]? = some wName ∧
      nearCandidate.GetLinearModelRank sampleUGC =
        some (specLinearModelRank sampleUGC nearCandidate wType wName) :=
  ⟨by decide, GetLinearModelRank_eq_spec sampleUGC nearCandidate (by decide)⟩

/-- C2: category-match override.  When pureCats or falseCats is set, two feature vectors that
differ only in the name-match quality get the same result from `GetLinearModelRank`, and that
result is a score as soon as the type is a declared variant (whatever the two name-match
qualities are). -/
theorem GetLinearModelRank_category_override (ugc : UGC) (info : RankingInfo) (ns1 ns2 : Nat)
    (h : info.m_pureCats = true ∨ info.m_falseCats = true) :
    RankingInfo.GetLinearModelRank ugc { info with m_nameScore := ns1 } =
      RankingInfo.GetLinearModelRank ugc { info with m_nameScore := ns2 } ∧
    (info.m_type < TYPE_COUNT →
      ∃ s : ℚ, RankingInfo.GetLinearModelRank ugc { info with m_nameScore := ns1 } = some s) := by
  constructor
  · rcases Bool.eq_false_or_eq_true info.m_categorialRequest with hc | hc
    · rw [GetLinearModelRank_categorial ugc { info with m_nameScore := ns1 } hc,
        GetLinearModelRank_categorial ugc { info with m_nameScore := ns2 } hc]
    · rw [GetLinearModelRank_freeText ugc { info with m_nameScore := ns1 } hc,
        GetLinearModelRank_freeText ugc { info with m_nameScore := ns2 } hc]
      simp [specEffectiveNameScore, h, RankingInfo.GetErrorsMade]
  · intro ht
    have ht2 : info.m_type < kType.length := ht
    rcases Bool.eq_false_or_eq_true info.m_categorialRequest with hc | hc
    · rw [GetLinearModelRank_categorial ugc { info with m_nameScore := ns1 } hc]
      exact ⟨_, rfl⟩
    · rw [GetLinearModelRank_freeText ugc { info with m_nameScore := ns1 } hc]
      simp [specEffectiveNameScore, h, List.getElem?_eq_getElem ht2, NAME_SCORE_ZERO, kNameScore]

theorem GetLinearModelRank_category_override_witness :
    ({ nearCandidate with m_pureCats := true } : RankingInfo).m_pureCats = true ∧
    RankingInfo.GetLinearModelRank sampleUGC
        { ({ nearCandidate with m_pureCats := true } : RankingInfo) with
          m_nameScore := NAME_SCORE_FULL_MATCH } =
      RankingInfo.GetLinearModelRank sampleUGC
        { ({ nearCandidate with m_pureCats := true } : RankingInfo) with
          m_nameScore := NAME_SCORE_ZERO } :=
  ⟨rfl, (GetLinearModelRank_category_override sampleUGC { nearCandidate with m_pureCats := true }
    NAME_SCORE_FULL_MATCH NAME_SCORE_ZERO (Or.inl rfl)).1⟩

/-- C3: mode exclusivity.  For a categorial request, replacing the type, the name-match
quality, errorsMade, maxErrorsMade, matchedFraction and allTokensUsed by arbitrary values
leaves the score returned by `GetLinearModelRank` unchanged (and a score is returned); for a
free-text request, replacing hasName leaves the result unchanged. -/
theorem GetLinearModelRank_mode_exclusivity (ugc : UGC) (info : RankingInfo) :
    (info.m_categorialRequest = true →
      ∀ (type nameScore : Nat) (errorsMade : Option Nat) (maxErrorsMade : Nat)
        (matchedFraction : ℚ) (allTokensUsed : Bool),
        (∃ s : ℚ, info.GetLinearModelRank ugc = some s) ∧
        RankingInfo.GetLinearModelRank ugc
          { info with
            m_type := type, m_nameScore := nameScore, m_errorsMade := errorsMade,
            m_maxErrorsMade := maxErrorsMade, m_matchedFraction := matchedFraction,
            m_allTokensUsed := allTokensUsed } = info.GetLinearModelRank ugc) ∧
    (info.m_categorialRequest = false →
      ∀ hasName : Bool,
        RankingInfo.GetLinearModelRank ugc { info with m_hasName := hasName } =
          info.GetLinearModelRank ugc) := by
  constructor
  · intro hc type nameScore errorsMade maxErrorsMade matchedFraction allTokensUsed
    constructor
    · rw [GetLinearModelRank_categorial ugc info hc]
      exact ⟨_, rfl⟩
    · rw [GetLinearModelRank_categorial ugc info hc,
        GetLinearModelRank_categorial ugc
          { info with
            m_type := type, m_nameScore := nameScore, m_errorsMade := errorsMade,
            m_maxErrorsMade := maxErrorsMade, m_matchedFraction := matchedFraction,
            m_allTokensUsed := allTokensUsed } hc]
  · intro hc hasName
    rw [GetLinearModelRank_freeText ugc info hc,
      GetLinearModelRank_freeText ugc { info with m_hasName := hasName } hc]
    rfl

theorem GetLinearModelRank_mode_exclusivity_witness :
    (undeclaredEnumsCandidate.m_categorialRequest = true ∧
      RankingInfo.GetLinearModelRank sampleUGC
          { undeclaredEnumsCandidate with
            m_type := TYPE_POI, m_nameScore := NAME_SCORE_ZERO, m_errorsMade := none,
            m_maxErrorsMade := 5, m_matchedFraction := 0, m_allTokensUsed := false } =
        undeclaredEnumsCandidate.GetLinearModelRank sampleUGC) ∧
    (nearCandidate.m_categorialRequest = false ∧
      RankingInfo.GetLinearModelRank sampleUGC { nearCandidate with m_hasName := true } =
        nearCandidate.GetLinearModelRank sampleUGC) :=
  ⟨⟨rfl, ((GetLinearModelRank_mode_exclusivity sampleUGC undeclaredEnumsCandidate).1 rfl
      TYPE_POI NAME_SCORE_ZERO none 5 0 false).2⟩,
    ⟨rfl, (GetLinearModelRank_mode_exclusivity sampleUGC nearCandidate).2 rfl true⟩⟩

/-- C4: end-to-end dominance.  The near candidate scores `3.1447477`; every otherwise-identical
candidate at a distance of at least 2,000,000 with rank 0 and popularity 0 scores `1.2771953`,
the same for every such distance, which is strictly lower. -/
theorem nearCandidate_dominates (ugc : UGC) (distance : ℚ) (h : 2000000 ≤ distance) :
    ∃ sNear sFar : ℚ,
      nearCandidate.GetLinearModelRank ugc = some sNear ∧
      (farCandidate distance).GetLinearModelRank ugc = some sFar ∧
      sNear = 3.1447477 ∧ sFar = 1.2771953 ∧ sFar < sNear := by
  refine ⟨3.1447477, 1.2771953, ?_, ?_, rfl, rfl, by norm_num⟩
  · rw [GetLinearModelRank_freeText ugc nearCandidate rfl]
    have hd : TransformDistance 0 = 0 := by
      rw [TransformDistance_of_le 0 (by norm_num)]; norm_num
    simp [nearCandidate, specEffectiveNameScore, kType, kNameScore, TYPE_CITY,
      NAME_SCORE_FULL_MATCH, hd, TransformRating_zero_pair, RankingInfo.GetErrorsMade, boolToDouble,
      kRank, kPopularity, kMatchedFraction, kAllTokensUsed]
    norm_num
  · rw [GetLinearModelRank_freeText ugc (farCandidate distance) rfl]
    simp [farCandidate, nearCandidate, specEffectiveNameScore, kType, kNameScore, TYPE_CITY,
      NAME_SCORE_FULL_MATCH, TransformDistance_of_ge distance h, TransformRating_zero_pair,
      RankingInfo.GetErrorsMade, boolToDouble, kDistanceToPivot, kMatchedFraction,
      kAllTokensUsed]
    norm_num

theorem nearCandidate_dominates_witness :
    (2000000 : ℚ) ≤ 7000000 ∧
    ∃ sNear sFar : ℚ,
      nearCandidate.GetLinearModelRank sampleUGC = some sNear ∧
      (farCandidate 7000000).GetLinearModelRank sampleUGC = some sFar ∧
      sNear = 3.1447477 ∧ sFar = 1.2771953 ∧ sFar < sNear :=
  ⟨by norm_num, nearCandidate_dominates sampleUGC 7000000 (by norm_num)⟩

/-- C5: enum-indexed lookups are total.  `kNameScore` has one entry for each of the 4 declared
name-match qualities and `kType` one entry for each of the 8 declared candidate types; hence
for every feature vector whose type and name-match quality are declared variants, the read of
`kType`, the read of `kNameScore` (at the actual and at the effective name score) are in
bounds, and `GetLinearModelRank` produces a score, in both query modes. -/
theorem GetLinearModelRank_total :
    kNameScore.length = NAME_SCORE_COUNT ∧ kType.length = TYPE_COUNT ∧
    ∀ (ugc : UGC) (info : RankingInfo), info.EnumsDeclared →
      (∃ w : ℚ, kType[info.m_type]? = some w) ∧
      (∃ w : ℚ, kNameScore[info.m_nameScore]? = some w) ∧
      (∃ w : ℚ, kNameScore[specEffectiveNameScore info]? = some w) ∧
      ∃ s : ℚ, info.GetLinearModelRank ugc = some s := by
  refine ⟨rfl, rfl, fun ugc info h => ?_⟩
  have ht : info.m_type < kType.length := h.1
  have hn : info.m_nameScore < kNameScore.length := h.2
  have he : specEffectiveNameScore info < kNameScore.length :=
    specEffectiveNameScore_lt info h.2
  exact ⟨⟨_, List.getElem?_eq_getElem ht⟩, ⟨_, List.getElem?_eq_getElem hn⟩,
    ⟨_, List.getElem?_eq_getElem he⟩, GetLinearModelRank_isSome_of_declared ugc info h⟩

theorem GetLinearModelRank_total_witness :
    nearCandidate.EnumsDeclared ∧
    ∃ s : ℚ, nearCandidate.GetLinearModelRank sampleUGC = some s :=
  ⟨by decide, (GetLinearModelRank_total.2.2 sampleUGC nearCandidate (by decide)).2.2.2⟩

/-- C6, as stated, fails: a feature vector with confidence count `6` (outside `0..3`, inside
`uint8_t`) gets the score `3.1847477`, computed with the rating term scaled by `6 / 3`; and a
categorial request whose type and name-match quality are not declared variants gets the score
`1.05`. -/
theorem GetLinearModelRank_fail_fast_counterexample :
    (overconfidentCandidate.Representable ∧ 3 < overconfidentCandidate.m_rating.1 ∧
      TransformRating sampleUGC overconfidentCandidate.m_rating = 0.8 ∧
      overconfidentCandidate.GetLinearModelRank sampleUGC = some 3.1847477) ∧
    (undeclaredEnumsCandidate.Representable ∧
      ¬ undeclaredEnumsCandidate.m_type < TYPE_COUNT ∧
      ¬ undeclaredEnumsCandidate.m_nameScore < NAME_SCORE_COUNT ∧
      undeclaredEnumsCandidate.GetLinearModelRank sampleUGC = some 1.05) := by
  have hr : TransformRating sampleUGC (6, 10) = 0.8 := by
    rw [TransformRating_of_ne_zero sampleUGC 6 10 (by decide)]
    norm_num [sampleUGC]
  have hd : TransformDistance 0 = 0 := by
    rw [TransformDistance_of_le 0 (by norm_num)]; norm_num
  refine ⟨⟨by decide, by decide, hr, ?_⟩, ⟨by decide, by decide, by decide, ?_⟩⟩
  · rw [GetLinearModelRank_freeText sampleUGC overconfidentCandidate rfl]
    simp [overconfidentCandidate, nearCandidate, specEffectiveNameScore, kType, kNameScore,
      TYPE_CITY, NAME_SCORE_FULL_MATCH, hd, hr, RankingInfo.GetErrorsMade, boolToDouble,
      kRank, kPopularity, kRating, kMatchedFraction, kAllTokensUsed]
    norm_num
  · rw [GetLinearModelRank_categorial sampleUGC undeclaredEnumsCandidate rfl]
    simp [undeclaredEnumsCandidate, nearCandidate, hd, TransformRating_zero_pair, boolToDouble,
      kRank, kPopularity]
    norm_num

/-- C6, amended: `GetLinearModelRank` does not check its input.  A categorial request never
reads the coefficient tables and always gets a score, whatever the type and the name-match
quality are; the confidence count is not checked: with declared enum values a score is
returned for every confidence count, and for every nonzero count `c`, also above `3`, the
normalized rating is `((value - 7.6) / (kMaxRating - kRatingDetalizationThreshold)) * (c / 3)`. -/
theorem GetLinearModelRank_contract_violations (ugc : UGC) (info : RankingInfo) :
    (info.m_categorialRequest = true → ∃ s : ℚ, info.GetLinearModelRank ugc = some s) ∧
    (info.EnumsDeclared →
      ∀ (confidenceCount : Nat) (value : ℚ),
        (∃ s : ℚ, RankingInfo.GetLinearModelRank ugc
          { info with m_rating := (confidenceCount, value) } = some s) ∧
        (confidenceCount ≠ 0 →
          TransformRating ugc (confidenceCount, value) =
            (value - 7.6) / (ugc.kMaxRating - ugc.kRatingDetalizationThreshold) *
              ((confidenceCount : ℚ) / 3))) := by
  refine ⟨fun hc => ⟨_, GetLinearModelRank_categorial ugc info hc⟩,
    fun h confidenceCount value => ⟨?_, fun hc => ?_⟩⟩
  · exact GetLinearModelRank_isSome_of_declared ugc
      { info with m_rating := (confidenceCount, value) } h
  · exact TransformRating_of_ne_zero ugc confidenceCount value hc

theorem GetLinearModelRank_contract_violations_witness :
    (undeclaredEnumsCandidate.m_categorialRequest = true ∧
      ∃ s : ℚ, undeclaredEnumsCandidate.GetLinearModelRank sampleUGC = some s) ∧
    (nearCandidate.EnumsDeclared ∧
      (∃ s : ℚ, RankingInfo.GetLinearModelRank sampleUGC
        { nearCandidate with m_rating := (200, 10) } = some s) ∧
      TransformRating sampleUGC (200, 10) =
        (10 - 7.6) / (sampleUGC.kMaxRating - sampleUGC.kRatingDetalizationThreshold) *
          (((200 : Nat) : ℚ) / 3)) :=
  ⟨⟨rfl, (GetLinearModelRank_contract_violations sampleUGC undeclaredEnumsCandidate).1 rfl⟩,
    ⟨by decide,
      ((GetLinearModelRank_contract_violations sampleUGC nearCandidate).2 (by decide) 200 10).1,
      ((GetLinearModelRank_contract_violations sampleUGC nearCandidate).2 (by decide) 200 10).2
        (by decide)⟩⟩

/-! ## Normalizers: confidence scale and error ratio -/

/-- C12: error-ratio normalization.  `GetErrorsMade` returns `1` when errorsMade is absent
(whatever maxErrorsMade is), `0` when errorsMade is present and maxErrorsMade is `0`, and
`errorsMade / maxErrorsMade` otherwise; errorsMade 2 of at most 4 gives `0.5`. -/
theorem GetErrorsMade_spec (info : RankingInfo) :
    (info.m_errorsMade = none → info.GetErrorsMade = 1) ∧
    (∀ e : Nat, info.m_errorsMade = some e → info.m_maxErrorsMade = 0 →
      info.GetErrorsMade = 0) ∧
    (∀ e : Nat, info.m_errorsMade = some e → info.m_maxErrorsMade ≠ 0 →
      info.GetErrorsMade = (e : ℚ) / (info.m_maxErrorsMade : ℚ)) ∧
    (info.m_errorsMade = some 2 → info.m_maxErrorsMade = 4 → info.GetErrorsMade = 0.5) := by
  refine ⟨fun h => ?_, fun e h h0 => ?_, fun e h h0 => ?_, fun h h4 => ?_⟩
  · simp [RankingInfo.GetErrorsMade, h]
  · simp [RankingInfo.GetErrorsMade, h, h0]
  · simp [RankingInfo.GetErrorsMade, h, h0]
  · simp [RankingInfo.GetErrorsMade, h, h4]
    norm_num

theorem GetErrorsMade_spec_witness :
    (({ nearCandidate with m_errorsMade := none } : RankingInfo).GetErrorsMade = 1) ∧
    (nearCandidate.GetErrorsMade = 0) ∧
    (({ nearCandidate with m_errorsMade := some 1, m_maxErrorsMade := 3 } :
        RankingInfo).GetErrorsMade = ((1 : Nat) : ℚ) / ((3 : Nat) : ℚ)) ∧
    (({ nearCandidate with m_errorsMade := some 2, m_maxErrorsMade := 4 } :
        RankingInfo).GetErrorsMade = 0.5) :=
  ⟨(GetErrorsMade_spec { nearCandidate with m_errorsMade := none }).1 rfl,
    (GetErrorsMade_spec nearCandidate).2.1 0 rfl rfl,
    (GetErrorsMade_spec { nearCandidate with m_errorsMade := some 1, m_maxErrorsMade := 3 }).2.2.1
      1 rfl (by decide),
    (GetErrorsMade_spec { nearCandidate with m_errorsMade := some 2, m_maxErrorsMade := 4 }).2.2.2
      rfl rfl⟩

/-- C13: when errorsMade, if present, does not exceed maxErrorsMade, the error ratio returned
by `GetErrorsMade` lies in `[0, 1]`. -/
theorem GetErrorsMade_mem_unit_interval (info : RankingInfo)
    (h : ∀ e : Nat, info.m_errorsMade = some e → e ≤ info.m_maxErrorsMade) :
    0 ≤ info.GetErrorsMade ∧ info.GetErrorsMade ≤ 1 := by
  unfold RankingInfo.GetErrorsMade
  cases he : info.m_errorsMade with
  | none => simp
  | some e =>
    have hle : e ≤ info.m_maxErrorsMade := h e he
    by_cases h0 : info.m_maxErrorsMade = 0
    · simp [h0]
    · simp only [h0, if_false]
      have hpos : (0 : ℚ) < (info.m_maxErrorsMade : ℚ) := by
        exact_mod_cast Nat.pos_of_ne_zero h0
      constructor
      · positivity
      · rw [div_le_one hpos]
        exact_mod_cast hle

theorem GetErrorsMade_mem_unit_interval_witness :
    0 ≤ ({ nearCandidate with m_errorsMade := some 2, m_maxErrorsMade := 4 } :
        RankingInfo).GetErrorsMade ∧
    ({ nearCandidate with m_errorsMade := some 2, m_maxErrorsMade := 4 } :
        RankingInfo).GetErrorsMade ≤ 1 :=
  GetErrorsMade_mem_unit_interval
    { nearCandidate with m_errorsMade := some 2, m_maxErrorsMade := 4 }
    (fun e he => by
      have h2 : e = 2 := (Option.some.inj he).symm
      subst h2
      decide)

/-! ## Order properties of the scorer -/

/-- C16: the score is monotone in the three magnitude signals.  For a feature vector `a` with
declared enum values and a vector `b` that differs from `a` only in distanceToPivot, rank and
popularity, with `a.distance ≤ b.distance`, `a.rank ≥ b.rank` and `a.popularity ≥ b.popularity`,
both get a score and the score of `a` is at least the score of `b`; it is strictly greater
when the rank or the popularity of `a` is strictly greater. -/
theorem GetLinearModelRank_monotone_magnitudes (ugc : UGC) (a : RankingInfo)
    (distance : ℚ) (rank popularity : Nat) (h : a.EnumsDeclared)
    (hd : a.m_distanceToPivot ≤ distance) (hr : rank ≤ a.m_rank)
    (hp : popularity ≤ a.m_popularity) :
    ∃ sa sb : ℚ,
      a.GetLinearModelRank ugc = some sa ∧
      RankingInfo.GetLinearModelRank ugc
        { a with m_distanceToPivot := distance, m_rank := rank, m_popularity := popularity } =
          some sb ∧
      sb ≤ sa ∧ ((rank < a.m_rank ∨ popularity < a.m_popularity) → sb < sa) := by
  have ht : a.m_type < kType.length := h.1
  have he : specEffectiveNameScore a < kNameScore.length := specEffectiveNameScore_lt a h.2
  have hD : kDistanceToPivot * TransformDistance distance ≤
      kDistanceToPivot * TransformDistance a.m_distanceToPivot :=
    mul_le_mul_of_nonpos_left (TransformDistance_mono hd) (by norm_num [kDistanceToPivot])
  have hR : kRank * ((rank : ℚ) / 255) ≤ kRank * ((a.m_rank : ℚ) / 255) := by
    have : (rank : ℚ) ≤ (a.m_rank : ℚ) := by exact_mod_cast hr
    unfold kRank
    linarith
  have hP : kPopularity * ((popularity : ℚ) / 255) ≤
      kPopularity * ((a.m_popularity : ℚ) / 255) := by
    have : (popularity : ℚ) ≤ (a.m_popularity : ℚ) := by exact_mod_cast hp
    unfold kPopularity
    linarith
  have hS : (rank < a.m_rank ∨ popularity < a.m_popularity) →
      kRank * ((rank : ℚ) / 255) + kPopularity * ((popularity : ℚ) / 255) <
        kRank * ((a.m_rank : ℚ) / 255) + kPopularity * ((a.m_popularity : ℚ) / 255) := by
    rintro (hlt | hlt)
    · have : (rank : ℚ) < (a.m_rank : ℚ) := by exact_mod_cast hlt
      have : kRank * ((rank : ℚ) / 255) < kRank * ((a.m_rank : ℚ) / 255) := by
        unfold kRank
        linarith
      linarith
    · have : (popularity : ℚ) < (a.m_popularity : ℚ) := by exact_mod_cast hlt
      have : kPopularity * ((popularity : ℚ) / 255) <
          kPopularity * ((a.m_popularity : ℚ) / 255) := by
        unfold kPopularity
        linarith
      linarith
  rcases Bool.eq_false_or_eq_true a.m_categorialRequest with hc | hc
  · refine ⟨_, _, GetLinearModelRank_categorial ugc a hc,
      GetLinearModelRank_categorial ugc
        { a with m_distanceToPivot := distance, m_rank := rank, m_popularity := popularity } hc,
      ?_, fun hlt => ?_⟩
    · dsimp only
      linarith
    · dsimp only
      linarith [hS hlt]
  · have ea := GetLinearModelRank_freeText ugc a hc
    have eb := GetLinearModelRank_freeText ugc
      { a with m_distanceToPivot := distance, m_rank := rank, m_popularity := popularity } hc
    have hn : specEffectiveNameScore
        { a with m_distanceToPivot := distance, m_rank := rank, m_popularity := popularity } =
        specEffectiveNameScore a := rfl
    rw [hn] at eb
    rw [List.getElem?_eq_getElem ht, List.getElem?_eq_getElem he] at ea eb
    refine ⟨_, _, ea, eb, ?_, fun hlt => ?_⟩
    · have hg : RankingInfo.GetErrorsMade
          { a with m_distanceToPivot := distance, m_rank := rank, m_popularity := popularity } =
          a.GetErrorsMade := rfl
      rw [hg]
      dsimp only
      linarith
    · have hg : RankingInfo.GetErrorsMade
          { a with m_distanceToPivot := distance, m_rank := rank, m_popularity := popularity } =
          a.GetErrorsMade := rfl
      rw [hg]
      dsimp only
      linarith [hS hlt]

theorem GetLinearModelRank_monotone_magnitudes_witness :
    ∃ sa sb : ℚ,
      nearCandidate.GetLinearModelRank sampleUGC = some sa ∧
      RankingInfo.GetLinearModelRank sampleUGC
        { nearCandidate with m_distanceToPivot := 1500, m_rank := 200, m_popularity := 255 } =
          some sb ∧
      sb ≤ sa ∧ ((200 < nearCandidate.m_rank ∨ 255 < nearCandidate.m_popularity) → sb < sa) :=
  GetLinearModelRank_monotone_magnitudes sampleUGC nearCandidate 1500 200 255 (by decide)
    (by norm_num [nearCandidate]) (by decide) (by decide)

/-! ## Diagnostics export -/

/-- C14: CSV shape.  `PrintCSVHeader` appends the 13 column names of the spec separated by
commas, in order; `ToCSV` appends 13 fields separated by commas, the i-th field being a
rendering of the value of the i-th header column (distanceToPivot, rank, popularity,
normalized rating, name-score label, error ratio, matchedFraction, type label, pureCats,
falseCats, allTokensUsed, categorialRequest, hasName), for every feature vector and every
stream state.  When no debug label contains a comma, no field contains a comma, so that the
row has exactly 12 commas, as the header has. -/
theorem ToCSV_shape (labels : DebugLabels) (ugc : UGC) (info : RankingInfo) (os : OStream) :
    PrintCSVHeader os = { os with buf := os.buf ++ ",".intercalate csvHeaderNames } ∧
    csvHeaderNames.length = 13 ∧
    commaCount (",".intercalate csvHeaderNames) = 12 ∧
    ∃ fields : List String,
      info.ToCSV labels ugc os =
        some { os with buf := os.buf ++ ",".intercalate fields, fixed := true } ∧
      fields.length = 13 ∧
      List.Forall₂ (Renders os.precision) fields (specCSVValues labels ugc info) ∧
      ((∀ i : Nat, commaCount (labels.nameScore i) = 0) →
        (∀ i : Nat, commaCount (labels.searchType i) = 0) →
        (∀ f ∈ fields, commaCount f = 0) ∧ commaCount (",".intercalate fields) = 12) := by
  refine ⟨PrintCSVHeader_eq os, rfl, by decide, csvFields labels ugc info os,
    ToCSV_eq labels ugc info os, rfl, ?_, fun hn ht => ?_⟩
  · simp only [csvFields, specCSVValues, List.forall₂_cons, List.Forall₂.nil, Renders,
      and_true, true_and]
    refine ⟨?_, ?_, Or.inl ?_, Or.inl ?_, Or.inl ?_⟩
    · cases os.boolalpha
      · exact Or.inl rfl
      · exact Or.inr rfl
    · cases os.boolalpha
      · exact Or.inl rfl
      · exact Or.inr rfl
    · cases info.m_allTokensUsed <;> rfl
    · cases info.m_categorialRequest <;> rfl
    · cases info.m_hasName <;> rfl
  · have hfields : ∀ f ∈ csvFields labels ugc info os, commaCount f = 0 := by
      intro f hf
      simp only [csvFields, List.mem_cons, List.mem_singleton, List.not_mem_nil,
        or_false] at hf
      rcases hf with h | h | h | h | h | h | h | h | h | h | h | h | h <;> subst h
      · exact commaCount_formatFixed _ _
      · exact commaCount_natCastToString _
      · exact commaCount_natCastToString _
      · exact commaCount_formatFixed _ _
      · exact hn _
      · exact commaCount_formatFixed _ _
      · exact commaCount_formatFixed _ _
      · exact ht _
      · exact commaCount_boolText _ _
      · exact commaCount_boolText _ _
      · exact commaCount_flagToString _
      · exact commaCount_flagToString _
      · exact commaCount_flagToString _
    refine ⟨hfields, ?_⟩
    have hc : commaCount "," = 1 := by decide
    simp only [csvFields, String.intercalate, String.intercalate.go, commaCount_append,
      commaCount_formatFixed, commaCount_natCastToString, commaCount_boolText,
      commaCount_flagToString, hn, ht, hc]

theorem ToCSV_shape_witness :
    ∃ fields : List String,
      nearCandidate.ToCSV sampleLabels sampleUGC boolalphaStream =
        some { boolalphaStream with
          buf := boolalphaStream.buf ++ ",".intercalate fields, fixed := true } ∧
      fields.length = 13 ∧ commaCount (",".intercalate fields) = 12 := by
  obtain ⟨fields, h1, h2, _, h4⟩ :=
    (ToCSV_shape sampleLabels sampleUGC nearCandidate boolalphaStream).2.2.2
  exact ⟨fields, h1, h2,
    (h4 sampleLabels_nameScore_commaFree sampleLabels_searchType_commaFree).2⟩

/-- C15, at the failing input: for the well-formed feature vector `pureCatsCandidate` and a
stream on which `boolalpha` is set, `ToCSV` writes `true` in the PureCats column and `false` in
the FalseCats column, while the three other boolean columns hold `1`, `0`, `0`; on a stream
without `boolalpha` the same vector gives `1` and `0` in these two columns. -/
theorem ToCSV_boolalpha_row :
    pureCatsCandidate.WellFormed ∧
    (pureCatsCandidate.ToCSV sampleLabels sampleUGC boolalphaStream).map OStream.buf =
      some "0.000000,255,255,0.000000,Full Match,0.000000,1.000000,City,true,false,1,0,0" ∧
    (pureCatsCandidate.ToCSV sampleLabels sampleUGC
        { boolalphaStream with boolalpha := false }).map OStream.buf =
      some "0.000000,255,255,0.000000,Full Match,0.000000,1.000000,City,1,0,1,0,0" := by
  have hg : pureCatsCandidate.GetErrorsMade = 0 := by
    simp [RankingInfo.GetErrorsMade, pureCatsCandidate, nearCandidate]
  have hr : TransformRating sampleUGC pureCatsCandidate.m_rating = 0 :=
    TransformRating_zero sampleUGC 0
  have hd : pureCatsCandidate.m_distanceToPivot = 0 := rfl
  have hm : pureCatsCandidate.m_matchedFraction = 1 := rfl
  refine ⟨?_, ?_, ?_⟩
  · unfold RankingInfo.WellFormed
    refine ⟨le_of_eq hd.symm, by decide, by decide, by decide, by decide, ?_, ?_, ?_⟩
    · simp [pureCatsCandidate, nearCandidate]
    · rw [hm]; norm_num
    · rw [hm]
  · rw [ToCSV_eq]
    simp only [Option.map, csvFields, hg, hr, hd, hm, boolalphaStream, formatFixed_zero,
      formatFixed_one]
    decide
  · rw [ToCSV_eq]
    simp only [Option.map, csvFields, hg, hr, hd, hm, boolalphaStream, formatFixed_zero,
      formatFixed_one]
    decide

/-! ## Binary64 arithmetic: confidence scale and category flags -/

theorem add_mono_binary64 {a a' b b' : ℚ} (ha : a ≤ a') (hb : b ≤ b') :
    binary64.add a b ≤ binary64.add a' b' :=
  roundDouble_mono (add_le_add ha hb)

theorem GetLinearModelRank_categorial_binary64 (ugc : UGC) (info : RankingInfo)
    (h : info.m_categorialRequest = true) :
    binary64.GetLinearModelRank ugc info = some
      (binary64.add (binary64.commonTerms ugc info info.m_falseCats)
        (binary64.mul (boolToDouble info.m_hasName) (binary64.lit kHasName))) := by
  simp [binary64.GetLinearModelRank, binary64.commonTerms, binary64.magnitudeTerms, h]

theorem GetLinearModelRank_freeText_binary64 (ugc : UGC) (info : RankingInfo)
    (h : info.m_categorialRequest = false) :
    binary64.GetLinearModelRank ugc info =
      (kType[info.m_type]?).bind fun wType =>
      (kNameScore[specEffectiveNameScore info]?).bind fun wName =>
      some (binary64.add (binary64.add (binary64.add (binary64.add (binary64.add
        (binary64.commonTerms ugc info info.m_falseCats) (binary64.lit wType))
        (binary64.lit wName))
        (binary64.mul (binary64.lit kErrorsMade) (binary64.GetErrorsMade info)))
        (binary64.mul (binary64.lit kMatchedFraction) info.m_matchedFraction))
        (binary64.mul (if info.m_allTokensUsed then 1 else 0) (binary64.lit kAllTokensUsed))) := by
  simp only [binary64.GetLinearModelRank, specEffectiveNameScore, binary64.commonTerms,
    binary64.magnitudeTerms, h]
  simp
  split <;> rfl

theorem commonTerms_falseCats_le (ugc : UGC) (info : RankingInfo) :
    binary64.commonTerms ugc info true ≤ binary64.commonTerms ugc info false := by
  unfold binary64.commonTerms
  apply add_mono_binary64 le_rfl
  have h1 : binary64.mul (boolToDouble false) (binary64.lit kFalseCats) = 0 := by
    simp [binary64.mul, boolToDouble, roundDouble_zero]
  have h2 : binary64.mul (boolToDouble true) (binary64.lit kFalseCats) ≤ 0 := by
    simp only [binary64.mul, boolToDouble, if_true, one_mul, binary64.lit]
    apply roundDouble_nonpos
    apply roundDouble_nonpos
    norm_num [kFalseCats]
  rw [h1]
  exact h2

theorem lit_nameScore_zero_le (i : Nat) (w : ℚ) (h : kNameScore[i]? = some w) :
    binary64.lit (-0.1752510) ≤ binary64.lit w :=
  roundDouble_mono (kNameScore_zero_le i w h)

/-- C17, amended: in binary64 arithmetic a category flag never raises the score.  For a
feature vector with declared enum values, the score with falseCats set is at most the score
with falseCats cleared, in both query modes; the score with pureCats set is at most the score
with pureCats cleared; and the `NAME_SCORE_ZERO` entry of `kNameScore` is its smallest
entry. -/
theorem GetLinearModelRank_category_flags_binary64 (ugc : UGC) (info : RankingInfo)
    (h : info.EnumsDeclared) :
    (∃ s0 s1 : ℚ,
      binary64.GetLinearModelRank ugc { info with m_falseCats := false } = some s0 ∧
      binary64.GetLinearModelRank ugc { info with m_falseCats := true } = some s1 ∧
      s1 ≤ s0) ∧
    (∃ s0 s1 : ℚ,
      binary64.GetLinearModelRank ugc { info with m_pureCats := false } = some s0 ∧
      binary64.GetLinearModelRank ugc { info with m_pureCats := true } = some s1 ∧
      s1 ≤ s0) ∧
    (∀ (i : Nat) (w w0 : ℚ), kNameScore[NAME_SCORE_ZERO]? = some w0 →
      kNameScore[i]? = some w → w0 ≤ w) := by
  have ht : info.m_type < kType.length := h.1
  have hz : kNameScore[NAME_SCORE_ZERO]? = some (-0.1752510) := by
    simp [NAME_SCORE_ZERO, kNameScore]
  refine ⟨?_, ?_, fun i w w0 h0 hw => ?_⟩
  · have he : specEffectiveNameScore { info with m_falseCats := false } < kNameScore.length :=
      specEffectiveNameScore_lt { info with m_falseCats := false } h.2
    have h1 : specEffectiveNameScore { info with m_falseCats := true } = NAME_SCORE_ZERO := by
      simp [specEffectiveNameScore]
    have hw := lit_nameScore_zero_le _ _ (List.getElem?_eq_getElem he)
    have hcommon := commonTerms_falseCats_le ugc info
    rcases Bool.eq_false_or_eq_true info.m_categorialRequest with hc | hc
    · exact ⟨_, _,
        GetLinearModelRank_categorial_binary64 ugc { info with m_falseCats := false } hc,
        GetLinearModelRank_categorial_binary64 ugc { info with m_falseCats := true } hc,
        add_mono_binary64 hcommon le_rfl⟩
    · have e0 := GetLinearModelRank_freeText_binary64 ugc { info with m_falseCats := false } hc
      have e1 := GetLinearModelRank_freeText_binary64 ugc { info with m_falseCats := true } hc
      rw [h1, hz] at e1
      rw [List.getElem?_eq_getElem he] at e0
      have ht0 : kType[({ info with m_falseCats := false } : RankingInfo).m_type]? =
          some kType[info.m_type] := List.getElem?_eq_getElem ht
      have ht1 : kType[({ info with m_falseCats := true } : RankingInfo).m_type]? =
          some kType[info.m_type] := List.getElem?_eq_getElem ht
      rw [ht0] at e0
      rw [ht1] at e1
      exact ⟨_, _, e0, e1,
        add_mono_binary64 (add_mono_binary64 (add_mono_binary64 (add_mono_binary64
          (add_mono_binary64 hcommon le_rfl) hw) le_rfl) le_rfl) le_rfl⟩
  · have he : specEffectiveNameScore { info with m_pureCats := false } < kNameScore.length :=
      specEffectiveNameScore_lt { info with m_pureCats := false } h.2
    have h1 : specEffectiveNameScore { info with m_pureCats := true } = NAME_SCORE_ZERO := by
      simp [specEffectiveNameScore]
    have hw := lit_nameScore_zero_le _ _ (List.getElem?_eq_getElem he)
    rcases Bool.eq_false_or_eq_true info.m_categorialRequest with hc | hc
    · exact ⟨_, _,
        GetLinearModelRank_categorial_binary64 ugc { info with m_pureCats := false } hc,
        GetLinearModelRank_categorial_binary64 ugc { info with m_pureCats := true } hc, le_rfl⟩
    · have e0 := GetLinearModelRank_freeText_binary64 ugc { info with m_pureCats := false } hc
      have e1 := GetLinearModelRank_freeText_binary64 ugc { info with m_pureCats := true } hc
      rw [h1, hz] at e1
      rw [List.getElem?_eq_getElem he] at e0
      have ht0 : kType[({ info with m_pureCats := false } : RankingInfo).m_type]? =
          some kType[info.m_type] := List.getElem?_eq_getElem ht
      have ht1 : kType[({ info with m_pureCats := true } : RankingInfo).m_type]? =
          some kType[info.m_type] := List.getElem?_eq_getElem ht
      rw [ht0] at e0
      rw [ht1] at e1
      exact ⟨_, _, e0, e1,
        add_mono_binary64 (add_mono_binary64 (add_mono_binary64 (add_mono_binary64
          (add_mono_binary64 le_rfl le_rfl) hw) le_rfl) le_rfl) le_rfl⟩
  · rw [hz] at h0
    have := kNameScore_zero_le i w hw
    rw [← Option.some.inj h0]
    exact this

theorem GetLinearModelRank_category_flags_binary64_witness :
    categorialCandidate.EnumsDeclared ∧
    ∃ s0 s1 : ℚ,
      binary64.GetLinearModelRank sampleUGC { categorialCandidate with m_falseCats := false } =
        some s0 ∧
      binary64.GetLinearModelRank sampleUGC { categorialCandidate with m_falseCats := true } =
        some s1 ∧
      s1 ≤ s0 :=
  ⟨by decide,
    (GetLinearModelRank_category_flags_binary64 sampleUGC categorialCandidate (by decide)).1⟩

theorem roundDouble_one : roundDouble 1 = 1 := by
  apply roundDouble_eval 1 1 4503599627370496 52 <;> norm_num [abs_lt]

theorem roundDouble_two : roundDouble 2 = 2 := by
  apply roundDouble_eval 2 2 4503599627370496 51 <;> norm_num [abs_lt]

theorem roundDouble_three : roundDouble 3 = 3 := by
  apply roundDouble_eval 3 3 6755399441055744 51 <;> norm_num [abs_lt]

theorem roundDouble_four : roundDouble 4 = 4 := by
  apply roundDouble_eval 4 4 4503599627370496 50 <;> norm_num [abs_lt]

theorem roundDouble_six : roundDouble 6 = 6 := by
  apply roundDouble_eval 6 6 6755399441055744 50 <;> norm_num [abs_lt]

theorem roundDouble_255 : roundDouble 255 = 255 := by
  apply roundDouble_eval 255 255 8972014882652160 45 <;> norm_num [abs_lt]

theorem roundDouble_half : roundDouble (1 / 2) = 1 / 2 := by
  apply roundDouble_eval (1 / 2) (1 / 2) 4503599627370496 53 <;> norm_num [abs_lt]

theorem lit_kMaxDistMeters : binary64.lit kMaxDistMeters = 2000000 := by
  unfold binary64.lit kMaxDistMeters
  apply roundDouble_eval 2000000 2000000 8589934592000000 32 <;> norm_num [abs_lt]

theorem TransformDistance_zero_binary64 : binary64.TransformDistance 0 = 0 := by
  have h : ¬ ((2000000 : ℚ) < 0) := by norm_num
  simp [binary64.TransformDistance, lit_kMaxDistMeters, stdMin, binary64.div, roundDouble_zero, h]

theorem TransformRating_zero_binary64 (ugc : UGC) (value : ℚ) :
    binary64.TransformRating ugc (0, value) = 0 := by
  simp [binary64.TransformRating, Id.run]

theorem TransformRating_of_ne_zero_binary64 (ugc : UGC) (c : Nat) (value : ℚ) (hc : c ≠ 0) :
    binary64.TransformRating ugc (c, value) =
      binary64.mul
        (binary64.div (binary64.sub value (binary64.lit kAverageRating))
          (binary64.sub ugc.kMaxRating ugc.kRatingDetalizationThreshold))
        (binary64.div (binary64.ofNat c) (binary64.lit 3)) := by
  simp [binary64.TransformRating, Id.run, hc]

theorem magnitudeTerms_categorialCandidate :
    binary64.magnitudeTerms sampleUGC categorialCandidate = 7234017283807668 / 2 ^ 63 := by
  have hd : binary64.TransformDistance categorialCandidate.m_distanceToPivot = 0 :=
    TransformDistance_zero_binary64
  have hr : binary64.TransformRating sampleUGC categorialCandidate.m_rating = 0 :=
    TransformRating_zero_binary64 sampleUGC 0
  have hrank : binary64.div (binary64.ofNat categorialCandidate.m_rank) (binary64.ofNat 255) =
      0 := by
    simp [binary64.div, binary64.ofNat, categorialCandidate, roundDouble_zero]
  have hpop : binary64.div (binary64.ofNat categorialCandidate.m_popularity)
      (binary64.ofNat 255) = 4521260802379792 / 2 ^ 58 := by
    have e4 : binary64.ofNat categorialCandidate.m_popularity = 4 := by
      simp only [binary64.ofNat, categorialCandidate]
      exact_mod_cast roundDouble_four
    have e255 : binary64.ofNat 255 = 255 := by
      simp only [binary64.ofNat]
      exact_mod_cast roundDouble_255
    rw [e4, e255]
    unfold binary64.div
    apply roundDouble_eval _ _ 4521260802379792 58 <;> norm_num [abs_lt]
  have hk : binary64.lit kPopularity = 7205759403792794 / 2 ^ 57 := by
    unfold binary64.lit kPopularity
    apply roundDouble_eval _ _ 7205759403792794 57 <;> norm_num [abs_lt]
  have hq : binary64.mul (7205759403792794 / 2 ^ 57) (4521260802379792 / 2 ^ 58) =
      7234017283807668 / 2 ^ 63 := by
    unfold binary64.mul
    apply roundDouble_eval _ _ 7234017283807668 63 <;> norm_num [abs_lt]
  have hq0 : roundDouble (7234017283807668 / 2 ^ 63) = 7234017283807668 / 2 ^ 63 := by
    apply roundDouble_eval _ _ 7234017283807668 63 <;> norm_num [abs_lt]
  unfold binary64.magnitudeTerms
  rw [hd, hr, hrank, hpop, hk, hq]
  simp only [binary64.mul, binary64.add, mul_zero, roundDouble_zero, add_zero, zero_add, hq0]

/-- C17, as stated, fails in binary64 arithmetic: for the well-formed categorial candidate with
rank 0, popularity 4 and a name, the score is `4510664097374214 / 2 ^ 53`
(0.5007843137254901) with falseCats cleared and `4547998408449866 / 2 ^ 55`
(0.1262323137254902) with falseCats set; the difference is below `0.3745520`. -/
theorem GetLinearModelRank_falseCats_gap_counterexample :
    categorialCandidate.WellFormed ∧ categorialCandidate.m_falseCats = false ∧
    falseCatsCandidate = { categorialCandidate with m_falseCats := true } ∧
    binary64.GetLinearModelRank sampleUGC categorialCandidate =
      some (4510664097374214 / 2 ^ 53) ∧
    binary64.GetLinearModelRank sampleUGC falseCatsCandidate =
      some (4547998408449866 / 2 ^ 55) ∧
    ¬ ((4547998408449866 / 2 ^ 55 : ℚ) ≤ 4510664097374214 / 2 ^ 53 - 0.3745520) := by
  have hm1 : binary64.magnitudeTerms sampleUGC falseCatsCandidate =
      7234017283807668 / 2 ^ 63 := magnitudeTerms_categorialCandidate
  have hq0 : roundDouble (7234017283807668 / 2 ^ 63) = 7234017283807668 / 2 ^ 63 := by
    apply roundDouble_eval _ _ 7234017283807668 63 <;> norm_num [abs_lt]
  have hkf : binary64.lit kFalseCats = -(6747328990523496 / 2 ^ 54) := by
    unfold binary64.lit kFalseCats
    apply roundDouble_eval_neg _ _ 6747328990523496 54 <;> norm_num [abs_lt]
  have hkf2 : roundDouble (-(6747328990523496 / 2 ^ 54)) = -(6747328990523496 / 2 ^ 54) := by
    apply roundDouble_eval_neg _ _ 6747328990523496 54 <;> norm_num [abs_lt]
  have hkh : binary64.mul (boolToDouble true) (binary64.lit kHasName) = 1 / 2 := by
    simp only [binary64.mul, boolToDouble, if_true, one_mul, binary64.lit, kHasName]
    have e : (0.5 : ℚ) = 1 / 2 := by norm_num
    rw [e, roundDouble_half, roundDouble_half]
  have hc0 : binary64.commonTerms sampleUGC categorialCandidate false =
      7234017283807668 / 2 ^ 63 := by
    unfold binary64.commonTerms
    rw [magnitudeTerms_categorialCandidate]
    simp only [binary64.mul, binary64.add, boolToDouble, Bool.false_eq_true, if_false, zero_mul,
      roundDouble_zero, add_zero, hq0]
  have hc1 : binary64.commonTerms sampleUGC falseCatsCandidate true =
      -(6733200050516059 / 2 ^ 54) := by
    unfold binary64.commonTerms
    rw [hm1, hkf]
    simp only [binary64.mul, binary64.add, boolToDouble, if_true, one_mul, hkf2]
    apply roundDouble_eval_neg _ _ 6733200050516059 54 <;> norm_num [abs_lt]
  refine ⟨?_, rfl, rfl, ?_, ?_, by norm_num⟩
  · unfold RankingInfo.WellFormed
    refine ⟨le_refl _, by decide, by decide, by decide, by decide, ?_, ?_, ?_⟩
    · simp [categorialCandidate, nearCandidate]
    · simp [categorialCandidate, nearCandidate]
    · simp [categorialCandidate, nearCandidate]
  · rw [GetLinearModelRank_categorial_binary64 sampleUGC categorialCandidate rfl]
    congr 1
    rw [show categorialCandidate.m_falseCats = false from rfl,
      show categorialCandidate.m_hasName = true from rfl, hc0, hkh]
    unfold binary64.add
    apply roundDouble_eval _ _ 4510664097374214 53 <;> norm_num [abs_lt]
  · rw [GetLinearModelRank_categorial_binary64 sampleUGC falseCatsCandidate rfl]
    congr 1
    rw [show falseCatsCandidate.m_falseCats = true from rfl,
      show falseCatsCandidate.m_hasName = true from rfl, hc1, hkh]
    unfold binary64.add
    apply roundDouble_eval _ _ 4547998408449866 55 <;> norm_num [abs_lt]

theorem roundHalfEven_tie_even (m : Nat) (hm : m % 2 = 0) :
    roundHalfEven ((m : ℚ) + 1 / 2) = m := by
  have hf : ⌊(m : ℚ) + 1 / 2⌋₊ = m := by
    rw [Nat.floor_eq_iff (by positivity)]
    constructor <;> linarith
  simp only [roundHalfEven, hf]
  rw [if_neg (by norm_num), if_neg (by norm_num), if_pos hm]

theorem roundDouble_eval_tie (x y : ℚ) (m k : Nat) (hy : y = m / 2 ^ k)
    (hlo : (2 : ℚ) ^ 52 ≤ x * 2 ^ k) (hhi : x * 2 ^ k < (2 : ℚ) ^ 53)
    (hc : x * 2 ^ k = m + 1 / 2) (hm : m % 2 = 0) : roundDouble x = y := by
  have hk : (0 : ℚ) < 2 ^ k := by positivity
  have hx : 0 < x := by
    by_contra hn
    have : x * 2 ^ k ≤ 0 := mul_nonpos_of_nonpos_of_nonneg (not_lt.mp hn) hk.le
    have : (0 : ℚ) < 2 ^ 52 := by positivity
    linarith
  have hz : (2 : ℚ) ^ (-(k : ℤ)) = 1 / 2 ^ k := by
    rw [zpow_neg, zpow_natCast, one_div]
  have hl : Int.log 2 x = -(k : ℤ) + 52 := by
    apply log_eq_of_bounds
    · rw [zpow_add₀ (by norm_num), hz]
      rw [show ((52 : ℤ)) = ((52 : ℕ) : ℤ) from rfl, zpow_natCast]
      rw [one_div, ← div_eq_inv_mul, div_le_iff₀ hk]
      exact hlo
    · rw [show (-(k : ℤ) + 52 + 1) = -(k : ℤ) + ((53 : ℕ) : ℤ) by push_cast; ring,
        zpow_add₀ (by norm_num), hz, zpow_natCast]
      rw [one_div, ← div_eq_inv_mul, lt_div_iff₀ hk]
      exact hhi
  rw [hy, roundDouble_of_nonneg hx.le]
  simp only [roundMagnitude, hl]
  have he : -(k : ℤ) + 52 - 52 = -(k : ℤ) := by ring
  rw [he, hz]
  have hq : x / (1 / 2 ^ k) = (m : ℚ) + 1 / 2 := by
    rw [← hc]
    field_simp
  rw [hq, roundHalfEven_tie_even m hm]
  ring

theorem ofNat_one_binary64 : binary64.ofNat 1 = 1 := by
  simp only [binary64.ofNat]
  exact_mod_cast roundDouble_one

theorem ofNat_two_binary64 : binary64.ofNat 2 = 2 := by
  simp only [binary64.ofNat]
  exact_mod_cast roundDouble_two

theorem ofNat_three_binary64 : binary64.ofNat 3 = 3 := by
  simp only [binary64.ofNat]
  exact_mod_cast roundDouble_three

theorem TransformRating_two_binary64 (ugc : UGC) (v : ℚ) :
    binary64.TransformRating ugc (2, v) = 2 * binary64.TransformRating ugc (1, v) := by
  rw [TransformRating_of_ne_zero_binary64 ugc 2 v (by decide),
    TransformRating_of_ne_zero_binary64 ugc 1 v (by decide), ofNat_one_binary64,
    ofNat_two_binary64]
  have h3 : binary64.div 2 (binary64.lit 3) = 2 * binary64.div 1 (binary64.lit 3) := by
    unfold binary64.div
    rw [← roundDouble_two_mul]
    congr 1
    ring
  rw [h3]
  unfold binary64.mul
  rw [← roundDouble_two_mul]
  congr 1
  ring

theorem TransformRating_isDouble_binary64 (ugc : UGC) (rating : Nat × ℚ) :
    roundDouble (binary64.TransformRating ugc rating) = binary64.TransformRating ugc rating := by
  obtain ⟨c, v⟩ := rating
  by_cases hc : c = 0
  · subst hc
    rw [TransformRating_zero_binary64, roundDouble_zero]
  · rw [TransformRating_of_ne_zero_binary64 ugc c v hc]
    exact roundDouble_idem _

/-- C11, amended: in binary64 arithmetic, doubling a confidence count `c` with `2c` within
`[0, 3]` doubles the result exactly, both as a real number and as the double product
`2.0 * TransformRating(c, v)`; hence for the counts `c = 1` and `c = 2` the result is `c` times
the result for count `1`. -/
theorem TransformRating_doubling_binary64 (ugc : UGC) (v : ℚ) :
    (∀ c : Nat, 2 * c ≤ 3 →
      binary64.TransformRating ugc (2 * c, v) = 2 * binary64.TransformRating ugc (c, v) ∧
      binary64.TransformRating ugc (2 * c, v) =
        binary64.mul (binary64.ofNat 2) (binary64.TransformRating ugc (c, v))) ∧
    (∀ c : Nat, 1 ≤ c → c ≤ 2 →
      binary64.TransformRating ugc (c, v) = (c : ℚ) * binary64.TransformRating ugc (1, v)) := by
  have hmul : ∀ z : ℚ, roundDouble z = z → binary64.mul (binary64.ofNat 2) z = 2 * z := by
    intro z hz
    rw [ofNat_two_binary64]
    unfold binary64.mul
    rw [roundDouble_two_mul, hz]
  constructor
  · intro c hc
    have hc' : c = 0 ∨ c = 1 := by omega
    rcases hc' with rfl | rfl
    · rw [hmul _ (TransformRating_isDouble_binary64 ugc (0, v))]
      simp [TransformRating_zero_binary64]
    · rw [hmul _ (TransformRating_isDouble_binary64 ugc (1, v))]
      exact ⟨TransformRating_two_binary64 ugc v, TransformRating_two_binary64 ugc v⟩
  · intro c h1 h2
    have hc' : c = 1 ∨ c = 2 := by omega
    rcases hc' with rfl | rfl
    · simp
    · exact_mod_cast TransformRating_two_binary64 ugc v

theorem TransformRating_doubling_binary64_witness :
    (2 * 1 ≤ 3 ∧
      binary64.TransformRating sampleUGC (2 * 1, 9.125) =
        2 * binary64.TransformRating sampleUGC (1, 9.125)) ∧
    (1 ≤ 2 ∧ 2 ≤ 2 ∧
      binary64.TransformRating sampleUGC (2, 9.125) =
        ((2 : Nat) : ℚ) * binary64.TransformRating sampleUGC (1, 9.125)) :=
  ⟨⟨by decide, ((TransformRating_doubling_binary64 sampleUGC 9.125).1 1 (by decide)).1⟩,
    ⟨by decide, by decide,
      (TransformRating_doubling_binary64 sampleUGC 9.125).2 2 (by decide) (by decide)⟩⟩

theorem ratingBase_binary64 :
    binary64.div (binary64.sub 9.125 (binary64.lit kAverageRating))
      (binary64.sub sampleUGC.kMaxRating sampleUGC.kRatingDetalizationThreshold) =
      4578659621160005 / 2 ^ 54 := by
  have h1 : binary64.lit kAverageRating = 8556839292003942 / 2 ^ 50 := by
    unfold binary64.lit kAverageRating
    apply roundDouble_eval _ _ 8556839292003942 50 <;> norm_num [abs_lt]
  have h2 : binary64.sub 9.125 (8556839292003942 / 2 ^ 50) = 6867989431740008 / 2 ^ 52 := by
    unfold binary64.sub
    apply roundDouble_eval _ _ 6867989431740008 52 <;> norm_num [abs_lt]
  have h3 : binary64.sub sampleUGC.kMaxRating sampleUGC.kRatingDetalizationThreshold = 6 := by
    unfold binary64.sub sampleUGC
    rw [← roundDouble_six]
    norm_num
  rw [h1, h2, h3]
  unfold binary64.div
  apply roundDouble_eval _ _ 4578659621160005 54 <;> norm_num [abs_lt]

/-- C11, as stated, fails in binary64 arithmetic at confidence count `3`: with the rating
scale `10` and threshold `4`, `TransformRating(3, 9.125)` is `4578659621160005 / 2 ^ 54`
(0.2541666666666667) and `TransformRating(1, 9.125)` is `6104879494880006 / 2 ^ 56`
(0.08472222222222223); three times the latter, exact or rounded to a double
(`4578659621160004 / 2 ^ 54`, 0.25416666666666665), differs from the former. -/
theorem TransformRating_threefold_counterexample :
    binary64.TransformRating sampleUGC (3, 9.125) = 4578659621160005 / 2 ^ 54 ∧
    binary64.TransformRating sampleUGC (1, 9.125) = 6104879494880006 / 2 ^ 56 ∧
    binary64.mul (binary64.ofNat 3) (binary64.TransformRating sampleUGC (1, 9.125)) =
      4578659621160004 / 2 ^ 54 ∧
    binary64.TransformRating sampleUGC (3, 9.125) ≠
      ((3 : Nat) : ℚ) * binary64.TransformRating sampleUGC (1, 9.125) ∧
    binary64.TransformRating sampleUGC (3, 9.125) ≠
      binary64.mul (binary64.ofNat 3) (binary64.TransformRating sampleUGC (1, 9.125)) := by
  have hl3 : binary64.lit 3 = 3 := roundDouble_three
  have h3 : binary64.TransformRating sampleUGC (3, 9.125) = 4578659621160005 / 2 ^ 54 := by
    rw [TransformRating_of_ne_zero_binary64 sampleUGC 3 9.125 (by decide), ratingBase_binary64,
      ofNat_three_binary64, hl3]
    have h33 : binary64.div 3 3 = 1 := by
      unfold binary64.div
      rw [← roundDouble_one]
      norm_num
    rw [h33]
    unfold binary64.mul
    apply roundDouble_eval _ _ 4578659621160005 54 <;> norm_num [abs_lt]
  have h1 : binary64.TransformRating sampleUGC (1, 9.125) = 6104879494880006 / 2 ^ 56 := by
    rw [TransformRating_of_ne_zero_binary64 sampleUGC 1 9.125 (by decide), ratingBase_binary64,
      ofNat_one_binary64, hl3]
    have h13 : binary64.div 1 3 = 6004799503160661 / 2 ^ 54 := by
      unfold binary64.div
      apply roundDouble_eval _ _ 6004799503160661 54 <;> norm_num [abs_lt]
    rw [h13]
    unfold binary64.mul
    apply roundDouble_eval _ _ 6104879494880006 56 <;> norm_num [abs_lt]
  have hm : binary64.mul (binary64.ofNat 3) (6104879494880006 / 2 ^ 56) =
      4578659621160004 / 2 ^ 54 := by
    rw [ofNat_three_binary64]
    unfold binary64.mul
    apply roundDouble_eval_tie _ _ 4578659621160004 54 <;> norm_num
  refine ⟨h3, h1, ?_, ?_, ?_⟩
  · rw [h1, hm]
  · rw [h3, h1]
    norm_num
  · rw [h3, h1, hm]
    norm_num

end search

namespace generator.regions

/-! ## Auxiliary facts on the region tree -/

theorem relabelEach_eq_map (k : Option Nat) (subtrees : List Node) :
    relabelEach k subtrees = subtrees.map (relabel k) := by
  induction subtrees with
  | nil => simp [relabelEach]
  | cons t ts ih => simp [relabelEach, ih]

mutual
theorem Mark_eq_relabel : ∀ tree : Node,
    MarkSuburbs tree = some (relabel none tree) ∧
    (tree.GetData.GetLevel = PlaceLevel.Locality →
      ∀ k, MarkLocality tree = some (relabel k tree)) ∧
    MarkSuburbsInLocality tree = some (relabel (some 1) tree) ∧
    ∀ k : Nat, MarkUnderLocalityAsSublocalities tree = some (relabel (some (k + 2)) tree)
  | .mk region children => by
    have ih := MarkEach_eq_relabel children
    have hLoc : region.GetLevel = PlaceLevel.Locality →
        ∀ k, MarkLocality (.mk region children) = some (relabel k (.mk region children)) := by
      intro hL k
      rw [MarkLocality]
      simp [hL, ih.2.1, relabel, relabelRegion, childDistance]
    refine ⟨?_, hLoc, ?_, fun k => ?_⟩
    · rw [MarkSuburbs]
      by_cases hL : region.GetLevel = PlaceLevel.Locality
      · rw [if_pos hL]
        exact hLoc hL none
      · simp [hL, ih.1, relabel, relabelRegion, childDistance]
    · rw [MarkSuburbsInLocality]
      by_cases hL : region.GetLevel = PlaceLevel.Locality
      · rw [if_pos hL]
        exact hLoc hL (some 1)
      · have h2 := ih.2.2 0
        simp only [Nat.zero_add] at h2
        simp [hL, h2, relabel, relabelRegion, childDistance, specLevel]
        split <;> rfl
    · rw [MarkUnderLocalityAsSublocalities]
      by_cases hL : region.GetLevel = PlaceLevel.Locality
      · simp only [hL, if_true]
        exact hLoc hL (some (k + 2))
      · have h2 := ih.2.2 (k + 1)
        simp [hL, h2, relabel, relabelRegion, childDistance, specLevel]
        by_cases hS : region.GetLevel = PlaceLevel.Suburb
        · simp [hS]
        · by_cases hU : region.GetLevel = PlaceLevel.Unknown ∧
              ¬region.GetAdminLevel = AdminLevel.Unknown
          · simp [hS, hU]
          · simp only [hS, hU, if_false, false_or]
            rfl
theorem MarkEach_eq_relabel : ∀ subtrees : List Node,
    MarkSuburbsEach subtrees = some (relabelEach none subtrees) ∧
    MarkSuburbsInLocalityEach subtrees = some (relabelEach (some 1) subtrees) ∧
    ∀ k : Nat, MarkUnderLocalityAsSublocalitiesEach subtrees =
      some (relabelEach (some (k + 2)) subtrees)
  | [] => by
    simp [MarkSuburbsEach, MarkSuburbsInLocalityEach, MarkUnderLocalityAsSublocalitiesEach,
      relabelEach]
  | subtree :: rest => by
    have ih1 := Mark_eq_relabel subtree
    have ih2 := MarkEach_eq_relabel rest
    refine ⟨?_, ?_, fun k => ?_⟩
    · rw [MarkSuburbsEach]
      simp [ih1.1, ih2.1, relabelEach]
    · rw [MarkSuburbsInLocalityEach]
      simp [ih1.2.2.1, ih2.2.1, relabelEach]
    · rw [MarkUnderLocalityAsSublocalitiesEach]
      simp [ih1.2.2.2 k, ih2.2.2 k, relabelEach]
end


theorem Node.subtreeAt_relabel : ∀ (path : List Nat) (tree : Node) (k : Option Nat),
    (tree.subtreeAt path = none → (relabel k tree).subtreeAt path = none) ∧
    ∀ n, tree.subtreeAt path = some n →
      (relabel k tree).subtreeAt path = some (relabel (tree.localityDistance k path) n) := by
  intro path
  induction path with
  | nil =>
    intro tree k
    simp [Node.subtreeAt, Node.localityDistance]
  | cons i path ih =>
    intro tree k
    cases tree with
    | mk region children =>
      simp only [relabel, Node.subtreeAt, Node.localityDistance, relabelEach_eq_map,
        List.getElem?_map]
      cases hc : children[i]? with
      | none => simp
      | some child =>
        simp only [Option.map_some']
        exact ih child (childDistance k region)

theorem localityDistance_pos : ∀ (path : List Nat) (tree : Node) (k0 : Option Nat) (k : Nat),
    (∀ j, k0 = some j → 1 ≤ j) → tree.localityDistance k0 path = some k → 1 ≤ k := by
  intro path
  induction path with
  | nil =>
    intro tree k0 k h0 hk
    cases tree
    simp only [Node.localityDistance] at hk
    exact h0 k hk
  | cons i path ih =>
    intro tree k0 k h0 hk
    cases tree with
    | mk region children =>
      simp only [Node.localityDistance] at hk
      cases hc : children[i]? with
      | none => simp [hc] at hk
      | some child =>
        simp only [hc] at hk
        refine ih child (childDistance k0 region) k ?_ hk
        intro j hj
        unfold childDistance at hj
        split at hj
        · simp at hj; omega
        · cases k0 with
          | none => simp at hj
          | some j0 => simp at hj; omega

theorem relabel_GetData (k : Option Nat) (n : Node) :
    (relabel k n).GetData = relabelRegion k n.GetData := by
  cases n; simp [relabel, Node.GetData]

theorem relabel_GetChildren_length (k : Option Nat) (n : Node) :
    (relabel k n).GetChildren.length = n.GetChildren.length := by
  cases n; simp [relabel, Node.GetChildren, relabelEach_eq_map]

theorem relabelRegion_GetAdminLevel (k : Option Nat) (region : Region) :
    (relabelRegion k region).GetAdminLevel = region.GetAdminLevel := by
  unfold relabelRegion
  split
  · rfl
  · cases k <;> rfl

theorem specLevel_ne_locality (k : Nat) (level : PlaceLevel) (adminLevel : AdminLevel)
    (h : level ≠ PlaceLevel.Locality) : specLevel k level adminLevel ≠ PlaceLevel.Locality := by
  unfold specLevel
  split_ifs <;> first | exact h | decide

theorem relabelRegion_locality_iff (k : Option Nat) (region : Region) :
    (relabelRegion k region).GetLevel = PlaceLevel.Locality ↔
      region.GetLevel = PlaceLevel.Locality := by
  unfold relabelRegion
  by_cases hL : region.GetLevel = PlaceLevel.Locality
  · simp [hL]
  · simp only [hL, if_false, iff_false]
    cases k with
    | none => exact hL
    | some k => exact specLevel_ne_locality k _ _ hL

theorem specLevel_idem (k : Nat) (level : PlaceLevel) (adminLevel : AdminLevel) :
    specLevel k (specLevel k level adminLevel) adminLevel = specLevel k level adminLevel := by
  unfold specLevel
  split_ifs <;> simp_all

theorem relabelRegion_idem (k : Option Nat) (region : Region) :
    relabelRegion k (relabelRegion k region) = relabelRegion k region := by
  by_cases hL : region.GetLevel = PlaceLevel.Locality
  · simp [relabelRegion, hL]
  · have h2 : ¬ (relabelRegion k region).GetLevel = PlaceLevel.Locality :=
      fun h => hL ((relabelRegion_locality_iff k region).mp h)
    cases k with
    | none => simp [relabelRegion, hL]
    | some k =>
      have e : relabelRegion (some k) region =
          region.SetLevel (specLevel k region.GetLevel region.GetAdminLevel) := by
        simp [relabelRegion, hL]
      rw [e] at h2 ⊢
      simp only [relabelRegion, h2, if_false]
      simp [Region.SetLevel, Region.GetLevel, Region.GetAdminLevel, specLevel_idem]

theorem childDistance_relabelRegion (k : Option Nat) (region : Region) :
    childDistance k (relabelRegion k region) = childDistance k region := by
  unfold childDistance
  simp only [relabelRegion_locality_iff]

mutual
theorem relabel_idem : ∀ (tree : Node) (k : Option Nat),
    relabel k (relabel k tree) = relabel k tree
  | .mk region children, k => by
    simp only [relabel, relabelRegion_idem, childDistance_relabelRegion]
    rw [relabelEach_idem children (childDistance k region)]
theorem relabelEach_idem : ∀ (subtrees : List Node) (k : Option Nat),
    relabelEach k (relabelEach k subtrees) = relabelEach k subtrees
  | [], k => by simp [relabelEach]
  | subtree :: rest, k => by
    simp only [relabelEach]
    rw [relabel_idem subtree k, relabelEach_idem rest k]
end

theorem MarkSuburbs_eq_relabel (tree : Node) : MarkSuburbs tree = some (relabel none tree) :=
  (Mark_eq_relabel tree).1

theorem relabel_level_of_not_locality (k : Nat) (n : Node)
    (h : n.GetData.GetLevel ≠ PlaceLevel.Locality) :
    (relabel (some k) n).GetData.GetLevel =
      specLevel k n.GetData.GetLevel n.GetData.GetAdminLevel := by
  rw [relabel_GetData]
  simp only [relabelRegion, if_neg h]
  rfl

theorem specLevel_ne_suburb (k : Nat) (level : PlaceLevel) (adminLevel : AdminLevel)
    (hk : 2 ≤ k) : specLevel k level adminLevel ≠ PlaceLevel.Suburb := by
  unfold specLevel
  have h1 : ¬ k = 1 := by omega
  simp only [h1, hk, if_true, if_false]
  split_ifs with h
  · decide
  · intro hs
    exact h (Or.inl hs)

/-! ## The suburb marker -/

/-- C18: `MarkSuburbs` relabels by depth below the nearest Locality ancestor.  For every node
`n` of the tree that is not a Locality and lies `k` edges below its nearest Locality ancestor
(then `k ≥ 1`), `MarkSuburbs` returns a tree in which the node at the same place has the level
`specLevel k` of the original level and admin level of `n`: for `k = 1`, Suburb when the admin
level is not Unknown and the original level otherwise; for `k ≥ 2`, Sublocality when the
original level is Suburb, or Unknown with admin level not Unknown, and the original level
otherwise.  In particular no node with `k ≥ 2` has level Suburb afterwards. -/
theorem MarkSuburbs_levels_by_depth (tree : Node) (path : List Nat) (n : Node) (k : Nat)
    (hn : tree.subtreeAt path = some n)
    (hk : tree.localityDistance none path = some k)
    (hl : n.GetData.GetLevel ≠ PlaceLevel.Locality) :
    1 ≤ k ∧
    ∃ tree' n' : Node,
      MarkSuburbs tree = some tree' ∧ tree'.subtreeAt path = some n' ∧
      n'.GetData.GetLevel = specLevel k n.GetData.GetLevel n.GetData.GetAdminLevel ∧
      (k = 1 → n'.GetData.GetLevel =
        if n.GetData.GetAdminLevel ≠ AdminLevel.Unknown then PlaceLevel.Suburb
        else n.GetData.GetLevel) ∧
      (2 ≤ k → n'.GetData.GetLevel =
        if n.GetData.GetLevel = PlaceLevel.Suburb ∨
            (n.GetData.GetLevel = PlaceLevel.Unknown ∧
              n.GetData.GetAdminLevel ≠ AdminLevel.Unknown) then PlaceLevel.Sublocality
        else n.GetData.GetLevel) ∧
      (2 ≤ k → n'.GetData.GetLevel ≠ PlaceLevel.Suburb) := by
  have hpos : 1 ≤ k := localityDistance_pos path tree none k (by simp) hk
  have hsub := (Node.subtreeAt_relabel path tree none).2 n hn
  rw [hk] at hsub
  have hlev := relabel_level_of_not_locality k n hl
  refine ⟨hpos, relabel none tree, relabel (some k) n, MarkSuburbs_eq_relabel tree, hsub, hlev,
    fun h1 => ?_, fun h2 => ?_, fun h2 => ?_⟩
  · rw [hlev]
    simp [specLevel, h1]
  · rw [hlev]
    have h1 : ¬ k = 1 := by omega
    simp only [specLevel, h1, h2, if_true, if_false]
  · rw [hlev]
    exact specLevel_ne_suburb k _ _ h2

theorem MarkSuburbs_levels_by_depth_witness :
    sampleTree.subtreeAt [0, 0] = some (.mk ⟨.Suburb, .Unknown⟩ []) ∧
    sampleTree.localityDistance none [0, 0] = some 2 ∧
    ∃ tree' n' : Node,
      MarkSuburbs sampleTree = some tree' ∧ tree'.subtreeAt [0, 0] = some n' ∧
      n'.GetData.GetLevel = specLevel 2 PlaceLevel.Suburb AdminLevel.Unknown ∧
      n'.GetData.GetLevel ≠ PlaceLevel.Suburb := by
  obtain ⟨_, tree', n', h1, h2, h3, _, _, h6⟩ :=
    MarkSuburbs_levels_by_depth sampleTree [0, 0] (.mk ⟨.Suburb, .Unknown⟩ []) 2 rfl rfl
      (by decide)
  exact ⟨rfl, rfl, tree', n', h1, h2, h3, h6 (by decide)⟩

/-- C19: `MarkSuburbs` changes nothing outside localities.  For every region tree it returns a
tree (it terminates and the assertion of `MarkLocality` never fails) with the same shape (the
same paths lead to a node, and every node keeps its number of children) in which every node
keeps its admin level, every Locality node keeps its level, every node without Locality
ancestor keeps its level, and no node that was not a Locality becomes one. -/
theorem MarkSuburbs_frame (tree : Node) :
    ∃ tree' : Node, MarkSuburbs tree = some tree' ∧
      ∀ path : List Nat,
        (tree.subtreeAt path = none → tree'.subtreeAt path = none) ∧
        ∀ n : Node, tree.subtreeAt path = some n →
          ∃ n' : Node, tree'.subtreeAt path = some n' ∧
            n'.GetChildren.length = n.GetChildren.length ∧
            n'.GetData.GetAdminLevel = n.GetData.GetAdminLevel ∧
            (n.GetData.GetLevel = PlaceLevel.Locality →
              n'.GetData.GetLevel = PlaceLevel.Locality) ∧
            (tree.localityDistance none path = none →
              n'.GetData.GetLevel = n.GetData.GetLevel) ∧
            (n'.GetData.GetLevel = PlaceLevel.Locality →
              n.GetData.GetLevel = PlaceLevel.Locality) := by
  refine ⟨relabel none tree, MarkSuburbs_eq_relabel tree, fun path => ?_⟩
  have hsub := Node.subtreeAt_relabel path tree none
  refine ⟨hsub.1, fun n hn => ?_⟩
  refine ⟨_, hsub.2 n hn, relabel_GetChildren_length _ n, ?_, ?_, ?_, ?_⟩
  · rw [relabel_GetData, relabelRegion_GetAdminLevel]
  · intro hL
    rw [relabel_GetData]
    exact (relabelRegion_locality_iff _ _).mpr hL
  · intro hnone
    rw [hnone, relabel_GetData]
    unfold relabelRegion
    split <;> rfl
  · intro hL
    rw [relabel_GetData] at hL
    exact (relabelRegion_locality_iff _ _).mp hL

theorem MarkSuburbs_frame_witness :
    ∃ tree' : Node, MarkSuburbs sampleTree = some tree' ∧
      ∃ n' : Node, tree'.subtreeAt [] = some n' ∧
        n'.GetChildren.length = 1 ∧ n'.GetData.GetLevel = PlaceLevel.Locality := by
  obtain ⟨tree', h1, h2⟩ := MarkSuburbs_frame sampleTree
  obtain ⟨n', h3, h4, _, h5, _, _⟩ := (h2 []).2 sampleTree rfl
  exact ⟨tree', h1, n', h3, h4, h5 rfl⟩

/-- C20: `MarkSuburbs` is idempotent: it returns a tree, and applied to that tree it returns
the same tree again. -/
theorem MarkSuburbs_idempotent (tree : Node) :
    ∃ tree' : Node, MarkSuburbs tree = some tree' ∧ MarkSuburbs tree' = some tree' := by
  refine ⟨relabel none tree, MarkSuburbs_eq_relabel tree, ?_⟩
  rw [MarkSuburbs_eq_relabel, relabel_idem]

end generator.regions
